import Mathlib

/-!
# Trading-Board: annotation overlay and export polling of `ChartDemo.jsx`

A shallow embedding of the stateful parts of `frontend/src/ChartDemo.jsx`:

* the `lineDrawer` Chart.js plugin (`afterDraw`, `drawOne`),
* the pointer handlers `onMouseDown`, `onMouseMove`, `onMouseUp` of the chart
  container together with the `useEffect([drawingEnabled, chartData])` hook,
* `resetDrawing`, `loadHistory`, `loadCsvHistory` and the two buttons that act
  on the overlay, with the event loop they form together with the handlers,
* `startCoinbaseExport` and its `setInterval` poll callback, both run to
  completion (`pollTick`) and split at the `await` (`pollFire`, `pollSettle`),
* `calcMovingAverage`.

React state hooks become fields of explicit state records, refs become
fields as well, and every handler is a function from the state before the
event to the state after it.  JavaScript exceptions are `Except String`
values whose payload is `e.message`.

Numbers: a JavaScript number is a `JsNum`, either one of the three
non-finite doubles or a finite value; finite values are represented by
integers (no statement below depends on rounding).  `calcMovingAverage` is
stated over arbitrary number operations (`Arith`), of which no law is assumed.
-/

namespace TradingBoard

/-! ## JavaScript values -/

/-- A JavaScript number: a finite value, `NaN`, `Infinity` or `-Infinity`. -/
inductive JsNum where
  | fin (v : Int)
  | nan
  | posInf
  | negInf
  deriving DecidableEq, Repr

/-- Subtraction of JavaScript numbers (`e.clientX - rect.left`). -/
def JsNum.sub : JsNum → JsNum → JsNum
  | .fin a, .fin b => .fin (a - b)
  | .nan, _ => .nan
  | _, .nan => .nan
  | .posInf, .posInf => .nan
  | .negInf, .negInf => .nan
  | .posInf, _ => .posInf
  | .negInf, _ => .negInf
  | .fin _, .posInf => .negInf
  | .fin _, .negInf => .posInf

/-- What a Chart.js scale conversion hands back: `undefined` or a number. -/
inductive JsVal where
  | undefined
  | num (n : JsNum)
  deriving DecidableEq, Repr

/-- The global `isFinite(v)`: true exactly on finite numbers
(`isFinite(undefined)` is `isFinite(NaN)`, which is false). -/
def isFinite : JsVal → Bool
  | .num (.fin _) => true
  | _ => false

/-! ## The chart object seen by the plugin and by the pointer handlers -/

/-- An annotation line `{x1, y1, x2, y2}` in data space. -/
structure Line where
  x1 : JsVal
  y1 : JsVal
  x2 : JsVal
  y2 : JsVal
  deriving DecidableEq, Repr

/-- The drag anchor `{x, y}` kept in `startPoint.current`. -/
structure Point where
  x : JsVal
  y : JsVal
  deriving DecidableEq, Repr

/-- A Chart.js axis scale: both conversions may throw. -/
structure Scale where
  getValueForPixel : JsNum → Except String JsVal
  getPixelForValue : JsVal → Except String JsVal

/-- The object `chart.scales`; either axis may be missing. -/
structure Scales where
  x : Option Scale
  y : Option Scale

/-- The result of `getBoundingClientRect()`: only `left` and `top` are read. -/
structure Rect where
  left : JsNum
  top : JsNum
  deriving DecidableEq, Repr

/-- The object `chart.canvas`. -/
structure Canvas where
  getBoundingClientRect : Except String Rect

/-- One call on the 2D rendering context, in the order `afterDraw` makes them. -/
inductive CtxOp where
  | save
  | setLineWidth (w : Nat)
  | setLineJoin (j : String)
  | setStrokeStyle (color : String)
  | beginPath
  | moveTo (x y : JsVal)
  | lineTo (x y : JsVal)
  | stroke
  | restore
  deriving DecidableEq, Repr

/-- The 2D rendering context `chart.ctx`: the calls performed so far, and a
fault table telling, from the calls performed so far, whether a call throws. -/
structure Ctx where
  log : List CtxOp
  faulty : List CtxOp → CtxOp → Bool

/-- The value of `options.plugins.lineDrawer`: `lines` may be missing
(`cfg.lines || []`), `tempLine` may be null. -/
structure LineDrawerCfg where
  lines : Option (List Line)
  tempLine : Option Line

/-- The object `chart.options.plugins`. -/
structure Plugins where
  lineDrawer : Option LineDrawerCfg

/-- The object `chart.options`. -/
structure ChartOptions where
  plugins : Option Plugins

/-- A Chart.js chart instance, with the members the component reads. -/
structure ChartObj where
  options : Option ChartOptions
  ctx : Option Ctx
  scales : Option Scales
  canvas : Option Canvas

/-- The value of `chartRef.current` when it is not null: the object itself,
and its `chartInstance` member when it has one. -/
structure ChartRefObj where
  chartInstance : Option ChartObj
  own : ChartObj

/-- The mouse event: only `clientX` and `clientY` are read. -/
structure MouseEvent where
  clientX : JsNum
  clientY : JsNum
  deriving DecidableEq, Repr

/-! ## Component state of the annotation overlay -/

/-- The object given to `setChartData`. -/
structure ChartData where
  labels : List String
  prices : List JsVal
  deriving DecidableEq, Repr

/-- The hooks of `ChartDemo` that the overlay uses: `drawingEnabled`,
`chartData`, `lines`, `isDrawing`, `tempLine` and the ref `startPoint`. -/
structure DrawState where
  drawingEnabled : Bool
  chartData : Option ChartData
  lines : List Line
  isDrawing : Bool
  tempLine : Option Line
  startPoint : Option Point
  deriving DecidableEq, Repr

/-- The state after the first render: the `useState`/`useRef` initial values. -/
def DrawState.init : DrawState :=
  { drawingEnabled := false, chartData := none, lines := [], isDrawing := false,
    tempLine := none, startPoint := none }

/-- `const chart = maybe && (maybe.chartInstance ? maybe.chartInstance : maybe)`. -/
def resolveChart (maybe : Option ChartRefObj) : Option ChartObj :=
  match maybe with
  | none => none
  | some m =>
    match m.chartInstance with
    | some c => some c
    | none => some m.own

/-- The conversion shared by the three pointer handlers (the first six
statements of each `try` block): `ok none` is the early `return` on a missing
scale, `error` is an exception thrown by the canvas or by a scale. -/
def pixelToData (chart : ChartObj) (cv : Canvas) (e : MouseEvent) :
    Except String (Option (JsVal × JsVal)) :=
  match cv.getBoundingClientRect with
  | .error m => .error m
  | .ok rect =>
    let x := e.clientX.sub rect.left
    let y := e.clientY.sub rect.top
    match chart.scales with
    | none => .ok none
    | some sc =>
      match sc.x, sc.y with
      | some sx, some sy =>
        match sx.getValueForPixel x with
        | .error m => .error m
        | .ok xVal =>
          match sy.getValueForPixel y with
          | .error m => .error m
          | .ok yVal => .ok (some (xVal, yVal))
      | _, _ => .ok none

/-- The handler `onMouseDown` of the chart container. -/
def onMouseDown (s : DrawState) (ref : Option ChartRefObj) (e : MouseEvent) : DrawState :=
  if !s.drawingEnabled || s.chartData.isNone then s
  else
    match resolveChart ref with
    | none => s
    | some chart =>
      match chart.canvas with
      | none => s
      | some cv =>
        match pixelToData chart cv e with
        | .error _ => s
        | .ok none => s
        | .ok (some (xVal, yVal)) =>
          if xVal = JsVal.undefined ∨ yVal = JsVal.undefined then s
          else { s with startPoint := some { x := xVal, y := yVal }, isDrawing := true }

/-- The handler `onMouseMove` of the chart container. -/
def onMouseMove (s : DrawState) (ref : Option ChartRefObj) (e : MouseEvent) : DrawState :=
  if !s.isDrawing || s.startPoint.isNone then s
  else
    match resolveChart ref with
    | none => s
    | some chart =>
      match chart.canvas with
      | none => s
      | some cv =>
        match pixelToData chart cv e with
        | .error _ => s
        | .ok none => s
        | .ok (some (xVal, yVal)) =>
          if xVal = JsVal.undefined ∨ yVal = JsVal.undefined then s
          else
            match s.startPoint with
            | none => s
            | some sp =>
              { s with tempLine := some { x1 := sp.x, y1 := sp.y, x2 := xVal, y2 := yVal } }

/-- The three statements `startPoint.current = null; setIsDrawing(false);
setTempLine(null);` that `onMouseUp` runs in its `finally` block (and in its
two explicit early exits). -/
def clearDrag (s : DrawState) : DrawState :=
  { s with startPoint := none, isDrawing := false, tempLine := none }

/-- The `try` block of `onMouseUp`, without the `finally`. -/
def onMouseUpTry (s : DrawState) (chart : ChartObj) (cv : Canvas) (e : MouseEvent) :
    DrawState :=
  match pixelToData chart cv e with
  | .error _ => s
  | .ok none => s
  | .ok (some (xVal, yVal)) =>
    if xVal = JsVal.undefined ∨ yVal = JsVal.undefined then clearDrag s
    else
      match s.startPoint with
      | none => clearDrag s
      | some sp =>
        { s with lines := s.lines ++ [{ x1 := sp.x, y1 := sp.y, x2 := xVal, y2 := yVal }] }

/-- The handler `onMouseUp` of the chart container: the two guards before the
`try`, then the `try` block followed by the `finally` block. -/
def onMouseUp (s : DrawState) (ref : Option ChartRefObj) (e : MouseEvent) : DrawState :=
  if !s.isDrawing || s.startPoint.isNone then s
  else
    match resolveChart ref with
    | none => s
    | some chart =>
      match chart.canvas with
      | none => s
      | some cv => clearDrag (onMouseUpTry s chart cv e)

/-- The body of `useEffect(..., [drawingEnabled, chartData])`. -/
def drawingEffect (s : DrawState) : DrawState :=
  let s1 : DrawState :=
    if !s.drawingEnabled || s.chartData.isNone then
      { s with isDrawing := false, startPoint := none, tempLine := none }
    else s
  if !s1.drawingEnabled then { s1 with lines := [] } else s1

/-- A click on the drawing toggle: `setDrawingEnabled((s) => !s)`, then the
effect, which re-runs because `drawingEnabled` changed. -/
def toggleDrawing (s : DrawState) : DrawState :=
  drawingEffect { s with drawingEnabled := !s.drawingEnabled }

/-- A run of `onMouseMove` over successive events, each with the chart
reference current at that event. -/
def moveAll (s : DrawState) : List (Option ChartRefObj × MouseEvent) → DrawState
  | [] => s
  | (ref, e) :: rest => moveAll (onMouseMove s ref e) rest

/-- The pair `(xVal, yVal)` that a pointer handler obtains for an event, when
it gets that far: the chart reference resolves, the chart has a canvas, both
axis scales are there and nothing throws. -/
def pointerData (ref : Option ChartRefObj) (e : MouseEvent) : Option (JsVal × JsVal) :=
  match resolveChart ref with
  | none => none
  | some chart =>
    match chart.canvas with
    | none => none
    | some cv =>
      match pixelToData chart cv e with
      | .ok (some p) => some p
      | _ => none

/-- Validity of a converted point as the viewport-transform contract defines
it: the conversion is available and both coordinates are finite numbers. -/
def validPoint (r : Option (JsVal × JsVal)) : Bool :=
  match r with
  | some (x, y) => isFinite x && isFinite y
  | none => false

/-- The failed conversions that the pointer handlers themselves test for: no
pair was obtained, or a coordinate of the pair is `undefined`. -/
def rejectedPoint (r : Option (JsVal × JsVal)) : Bool :=
  match r with
  | some (x, y) => decide (x = JsVal.undefined ∨ y = JsVal.undefined)
  | none => true

/-- The drag machine is in `Dragging`: the flag is set and an anchor is held. -/
def Dragging (s : DrawState) : Bool :=
  s.isDrawing && s.startPoint.isSome

/-! ## Sample charts -/

/-- A scale on which pixel offsets and data values coincide. -/
def unitScale : Scale :=
  { getValueForPixel := fun p => .ok (.num p), getPixelForValue := fun v => .ok v }

/-- A scale whose pixel-to-data conversion is `NaN` everywhere (a chart area
of zero length divides by zero). -/
def nanScale : Scale :=
  { getValueForPixel := fun _ => .ok (.num .nan), getPixelForValue := fun _ => .ok (.num .nan) }

/-- A canvas whose bounding rectangle starts at the origin. -/
def originCanvas : Canvas :=
  { getBoundingClientRect := .ok { left := .fin 0, top := .fin 0 } }

/-- A mounted chart with the given scales and no plugin options. -/
def chartWith (sx sy : Scale) : ChartRefObj :=
  { chartInstance := none,
    own := { options := none, ctx := none, scales := some { x := some sx, y := some sy },
             canvas := some originCanvas } }

/-- The mouse event at client position `(x, y)`. -/
def mouseAt (x y : Int) : MouseEvent :=
  { clientX := .fin x, clientY := .fin y }

/-- The data-space value `n`. -/
def dataVal (n : Int) : JsVal := .num (.fin n)

/-- The dataset `labels = ["2023-01", "2023-02", "2023-03"]`, `data = [100, 110, 90]`. -/
def sampleData : ChartData :=
  { labels := ["2023-01", "2023-02", "2023-03"],
    prices := [dataVal 100, dataVal 110, dataVal 90] }

/-- The line from data `(x1, y1)` to data `(x2, y2)`. -/
def lineOf (x1 y1 x2 y2 : Int) : Line :=
  { x1 := dataVal x1, y1 := dataVal y1, x2 := dataVal x2, y2 := dataVal y2 }

/-- Drawing mode on, the sample dataset loaded, the given committed lines,
and no drag in progress. -/
def idleWith (ls : List Line) : DrawState :=
  { drawingEnabled := true, chartData := some sampleData, lines := ls, isDrawing := false,
    tempLine := none, startPoint := none }

/-- As `idleWith`, but in the middle of a drag anchored at `(ax, ay)` with the
given draft. -/
def draggingWith (ls : List Line) (ax ay : Int) (draft : Option Line) : DrawState :=
  { drawingEnabled := true, chartData := some sampleData, lines := ls, isDrawing := true,
    tempLine := draft, startPoint := some { x := dataVal ax, y := dataVal ay } }

/-- A scale whose data-to-pixel conversion is `NaN` at the data value `1`
and the identity elsewhere. -/
def gapScale : Scale :=
  { getValueForPixel := fun p => .ok (.num p),
    getPixelForValue := fun v => if v = dataVal 1 then .ok (.num .nan) else .ok v }

/-- A scale both of whose conversions throw. -/
def brokenScale : Scale :=
  { getValueForPixel := fun _ => .error "scale error",
    getPixelForValue := fun _ => .error "scale error" }

/-- A rendering context with an empty log, none of whose calls throws. -/
def cleanCtx : Ctx :=
  { log := [], faulty := fun _ _ => false }

/-- A rendering context with an empty log, every call of which throws. -/
def brokenCtx : Ctx :=
  { log := [], faulty := fun _ _ => true }

/-- A chart as the plugin receives it: the overlay configuration holds the
given lines and draft. -/
def overlayChart (ctx : Ctx) (sx sy : Scale) (ls : List Line) (draft : Option Line) : ChartObj :=
  { options := some { plugins := some { lineDrawer := some { lines := some ls,
                                                              tempLine := draft } } },
    ctx := some ctx, scales := some { x := some sx, y := some sy },
    canvas := some originCanvas }

/-! ## The `lineDrawer` plugin -/

/-- Performs the given calls on the context in order: each call is appended to
the log unless the fault table makes it throw, and the first throw ends the
run with the exception and the context as it then is. -/
def Ctx.run (c : Ctx) : List CtxOp → Ctx × Option String
  | [] => (c, none)
  | op :: rest =>
    if c.faulty c.log op then (c, some "canvas error")
    else Ctx.run { c with log := c.log ++ [op] } rest

/-- The stroke colour of committed lines. -/
def savedColor : String := "rgba(255,200,0,0.9)"

/-- The stroke colour of the draft line. -/
def tempColor : String := "rgba(255,255,255,0.6)"

/-- The closure `drawOne(l, color)` of `afterDraw`: returns the context after
the call and the exception it threw, if any. -/
def drawOne (scales : Option Scales) (c : Ctx) (l : Line) (color : String) :
    Ctx × Option String :=
  match scales with
  | none => (c, none)
  | some sc =>
    match sc.x, sc.y with
    | some sx, some sy =>
      match sx.getPixelForValue l.x1 with
      | .error m => (c, some m)
      | .ok x1 =>
        match sx.getPixelForValue l.x2 with
        | .error m => (c, some m)
        | .ok x2 =>
          match sy.getPixelForValue l.y1 with
          | .error m => (c, some m)
          | .ok y1 =>
            match sy.getPixelForValue l.y2 with
            | .error m => (c, some m)
            | .ok y2 =>
              if !isFinite x1 || !isFinite x2 || !isFinite y1 || !isFinite y2 then (c, none)
              else
                c.run [CtxOp.setStrokeStyle color, CtxOp.beginPath, CtxOp.moveTo x1 y1,
                  CtxOp.lineTo x2 y2, CtxOp.stroke]
    | _, _ => (c, none)

/-- The loop `lines.forEach((l) => { try { drawOne(l, ...) } catch (e) {} })`:
an exception of one line is swallowed and the loop goes on. -/
def drawSaved (scales : Option Scales) (c : Ctx) : List Line → Ctx
  | [] => c
  | l :: rest => drawSaved scales (drawOne scales c l savedColor).1 rest

/-- The block `if (temp) { try { drawOne(temp, ...) } catch (e) {} }`. -/
def drawTemp (scales : Option Scales) (c : Ctx) (temp : Option Line) : Ctx :=
  match temp with
  | none => c
  | some t => (drawOne scales c t tempColor).1

/-- The `try` block of `afterDraw`: the context of the chart afterwards (if it
has one) and the exception that leaves the block, if any. -/
def afterDrawTry (chart : ChartObj) : Option Ctx × Option String :=
  match chart.options with
  | none => (chart.ctx, some "TypeError: chart.options is undefined")
  | some opts =>
    match opts.plugins.bind (fun p => p.lineDrawer) with
    | none => (chart.ctx, none)
    | some cfg =>
      let lines := cfg.lines.getD []
      let temp := cfg.tempLine
      match chart.ctx with
      | none => (none, some "TypeError: ctx is undefined")
      | some c0 =>
        match c0.run [CtxOp.save, CtxOp.setLineWidth 2, CtxOp.setLineJoin "round"] with
        | (c1, some m) => (some c1, some m)
        | (c1, none) =>
          let c2 := drawSaved chart.scales c1 lines
          let c3 := drawTemp chart.scales c2 temp
          let r := c3.run [CtxOp.restore]
          (some r.1, r.2)

/-- The plugin hook `lineDrawer.afterDraw(chart)`: the `try` block with the
empty `catch`; the second component is the exception that reaches the caller. -/
def afterDraw (chart : ChartObj) : Option Ctx × Option String :=
  match afterDrawTry chart with
  | (c, some _) => (c, none)
  | (c, none) => (c, none)

/-- The pixel coordinates `(x1, y1, x2, y2)` of the endpoints of a line under
the transform, when both axis scales are there and no conversion throws. -/
def pixelEnds (scales : Option Scales) (l : Line) : Option (JsVal × JsVal × JsVal × JsVal) :=
  match scales with
  | some { x := some sx, y := some sy } =>
    match sx.getPixelForValue l.x1, sy.getPixelForValue l.y1,
      sx.getPixelForValue l.x2, sy.getPixelForValue l.y2 with
    | .ok x1, .ok y1, .ok x2, .ok y2 => some (x1, y1, x2, y2)
    | _, _, _, _ => none
  | _ => none

/-- The canvas calls that stroke one segment in the given colour, provided
its four pixel coordinates are all finite; no call otherwise. -/
def strokeCalls (scales : Option Scales) (color : String) (l : Line) : List CtxOp :=
  match pixelEnds scales l with
  | some (x1, y1, x2, y2) =>
    if isFinite x1 && isFinite y1 && isFinite x2 && isFinite y2 then
      [CtxOp.setStrokeStyle color, CtxOp.beginPath, CtxOp.moveTo x1 y1, CtxOp.lineTo x2 y2,
        CtxOp.stroke]
    else []
  | none => []

/-- The calls of a whole render pass as the overlay contract words it: set-up,
one stroke per committed line with finite pixel coordinates in sequence
order, then the draft under the same rule, then `restore`. -/
def overlayCalls (scales : Option Scales) (lines : List Line) (temp : Option Line) :
    List CtxOp :=
  [CtxOp.save, CtxOp.setLineWidth 2, CtxOp.setLineJoin "round"]
    ++ (lines.map (strokeCalls scales savedColor)).flatten
    ++ (match temp with
        | none => []
        | some t => strokeCalls scales tempColor t)
    ++ [CtxOp.restore]

/-! ## The export job: `startCoinbaseExport` and its poll timer -/

/-- A status snapshot `d` as served by the status endpoint. -/
structure Snapshot where
  status : String
  done : Nat
  total : Nat
  percent : Nat
  current : Option String
  errors : Nat
  filename : Option String
  fail_reason : Option String
  deriving DecidableEq, Repr

/-- The outcome of one status round trip (`fetch` then `s.json()`). -/
inductive StatusReply where
  | fetchError (msg : String)
  | jsonError (msg : String)
  | jsonNull
  | json (d : Snapshot)
  deriving DecidableEq, Repr

/-- The outcome of the start round trip: `fetch` rejects; the response is not
`ok` (with the outcome of `r.text()`); `r.json()` rejects; the body is `null`;
or a body with its `job_id` member. -/
inductive StartReply where
  | fetchError (msg : String)
  | notOk (text : Except String String)
  | jsonError (msg : String)
  | jsonNull
  | ok (job_id : Option String)

/-- A live `setInterval` handle and the `job_id` its callback closes over. -/
structure Timer where
  id : Nat
  jobId : Option String
  deriving DecidableEq, Repr

/-- The hooks `exporting`, `exportErr` and `cbStatus`, the live interval
timers, and the log of requests sent to the status endpoint. -/
structure ExportState where
  exporting : Bool
  exportErr : Option String
  cbStatus : Option Snapshot
  timers : List Timer
  nextTimer : Nat
  statusRequests : List (Option String)
  deriving DecidableEq, Repr

/-- The export state after the first render. -/
def ExportState.init : ExportState :=
  { exporting := false, exportErr := none, cbStatus := none, timers := [], nextTimer := 0,
    statusRequests := [] }

/-- The message of the `TypeError` raised by reading a member of `null`. -/
def nullMessage : String := "Cannot read properties of null"

/-- The function `startCoinbaseExport`, given the outcome of its start request. -/
def startCoinbaseExport (s : ExportState) (reply : StartReply) : ExportState :=
  let s1 : ExportState := { s with exporting := true, exportErr := none, cbStatus := none }
  let failed (m : String) : ExportState := { s1 with exportErr := some m, exporting := false }
  match reply with
  | .fetchError m => failed m
  | .notOk (.ok text) => failed text
  | .notOk (.error m) => failed m
  | .jsonError m => failed m
  | .jsonNull => failed nullMessage
  | .ok job_id =>
    { s1 with timers := s1.timers ++ [{ id := s1.nextTimer, jobId := job_id }],
              nextTimer := s1.nextTimer + 1 }

/-- The call `clearInterval(poll)`. -/
def clearInterval (s : ExportState) (id : Nat) : ExportState :=
  { s with timers := s.timers.filter (fun t => t.id != id) }

/-- The `catch` block of the poll callback. -/
def pollCatch (s : ExportState) (id : Nat) (m : String) : ExportState :=
  { clearInterval s id with exportErr := some m, exporting := false }

/-- One firing of the interval timer `id`, run to completion with the outcome
of its status request.  A timer that is not live does not fire. -/
def pollTick (s : ExportState) (id : Nat) (reply : StatusReply) : ExportState :=
  match s.timers.find? (fun t => t.id == id) with
  | none => s
  | some t =>
    let s1 : ExportState := { s with statusRequests := s.statusRequests ++ [t.jobId] }
    match reply with
    | .fetchError m => pollCatch s1 id m
    | .jsonError m => pollCatch s1 id m
    | .jsonNull => pollCatch { s1 with cbStatus := none } id nullMessage
    | .json d =>
      let s2 : ExportState := { s1 with cbStatus := some d }
      if d.status = "done" then { clearInterval s2 id with exporting := false } else s2

/-- Successive timer firings, each with the timer it belongs to and the
outcome of its request; a firing starts after the previous one has completed. -/
def pollAll (s : ExportState) : List (Nat × StatusReply) → ExportState
  | [] => s
  | (id, reply) :: rest => pollAll (pollTick s id reply) rest

/-- A snapshot with the given status and all counters at zero. -/
def snapshotOf (status : String) : Snapshot :=
  { status := status, done := 0, total := 0, percent := 0, current := none, errors := 0,
    filename := none, fail_reason := none }

/-- The message caught by the poll callback for a reply on which it throws:
a rejected `fetch`, a rejected `s.json()`, or a `null` body (reading
`d.status` raises); `none` for a reply that carries a snapshot. -/
def StatusReply.failure : StatusReply → Option String
  | .fetchError m => some m
  | .jsonError m => some m
  | .jsonNull => some nullMessage
  | .json _ => none

/-- The firings of the timer `id` that receive the given replies in turn. -/
def ticksOf (id : Nat) (replies : List StatusReply) : List (Nat × StatusReply) :=
  replies.map (fun r => (id, r))

/-- The export state right after a successful start of job `job-1` from the
initial state: timer `0` is live. -/
def startedJob : ExportState :=
  startCoinbaseExport ExportState.init (.ok (some "job-1"))

/-! ## Dataset loads, buttons and the event loop of the overlay -/

/-- The function `resetDrawing` (its `setShowMA(false)` touches no hook of the
overlay). -/
def resetDrawing (s : DrawState) : DrawState :=
  { s with drawingEnabled := false, lines := [], tempLine := none }

/-- The outcome of the two requests of `loadHistory`: a failure (a fetch
rejects, a response is not `ok`, a body does not parse), or the members
`labels` and `data` of the history body, either of which may be missing. -/
inductive HistoryReply where
  | failed (msg : String)
  | loaded (labels : Option (List String)) (data : Option (List JsVal))
  deriving DecidableEq, Repr

/-- The function `loadHistory`, on the hooks of the overlay: on success
`resetDrawing()` and `setChartData(...)`, after which the effect re-runs
because `chartData` is a new object. -/
def loadHistory (s : DrawState) (reply : HistoryReply) : DrawState :=
  match reply with
  | .failed _ => s
  | .loaded labels data =>
    drawingEffect
      { resetDrawing s with chartData := some { labels := labels.getD [], prices := data.getD [] } }

/-- The outcome of the request of `loadCsvHistory`: a failure, or the members
`available`, `labels` and `data` of the body. -/
inductive CsvReply where
  | failed (msg : String)
  | json (available : Bool) (labels : List String) (data : List JsVal)
  deriving DecidableEq, Repr

/-- The function `loadCsvHistory`, on the hooks of the overlay. -/
def loadCsvHistory (s : DrawState) (reply : CsvReply) : DrawState :=
  match reply with
  | .failed _ => s
  | .json available labels data =>
    if !available || data.length == 0 then s
    else drawingEffect { resetDrawing s with chartData := some { labels := labels, prices := data } }

/-- A click on the drawing toggle, which is disabled while `chartData` is null. -/
def toggleClick (s : DrawState) : DrawState :=
  if s.chartData.isNone then s else toggleDrawing s

/-- A click on the clear-lines button (`setLines([])`), which is disabled while
there is no committed line. -/
def clearLinesClick (s : DrawState) : DrawState :=
  if s.lines.length == 0 then s else { s with lines := [] }

/-- The events that reach the hooks of the overlay. -/
inductive DrawEvent where
  | pointerDown (ref : Option ChartRefObj) (e : MouseEvent)
  | pointerMove (ref : Option ChartRefObj) (e : MouseEvent)
  | pointerUp (ref : Option ChartRefObj) (e : MouseEvent)
  | toggle
  | clearLines
  | historyLoaded (reply : HistoryReply)
  | csvLoaded (reply : CsvReply)

/-- The state after one event. -/
def DrawState.step (s : DrawState) : DrawEvent → DrawState
  | .pointerDown ref e => onMouseDown s ref e
  | .pointerMove ref e => onMouseMove s ref e
  | .pointerUp ref e => onMouseUp s ref e
  | .toggle => toggleClick s
  | .clearLines => clearLinesClick s
  | .historyLoaded reply => loadHistory s reply
  | .csvLoaded reply => loadCsvHistory s reply

/-- The state after a sequence of events, in arrival order. -/
def DrawState.run (s : DrawState) : List DrawEvent → DrawState
  | [] => s
  | ev :: rest => DrawState.run (s.step ev) rest

/-- The drag machine is in `Idle`: flag off, no anchor, no draft. -/
def Idle (s : DrawState) : Bool :=
  !s.isDrawing && s.startPoint.isNone && s.tempLine.isNone

/-- The flags are consistent: an anchor is recorded exactly when `isDrawing`
is set, and a draft is present only then. -/
def flagsConsistent (s : DrawState) : Bool :=
  (s.isDrawing == s.startPoint.isSome) && (!s.tempLine.isSome || Dragging s)

/-- The draft, when there is one, starts at the recorded anchor. -/
def draftAnchored (s : DrawState) : Bool :=
  match s.tempLine, s.startPoint with
  | some l, some sp => decide (l.x1 = sp.x ∧ l.y1 = sp.y)
  | some _, none => false
  | none, _ => true

/-- Every pointerDown of the sequence arrives with no draft present, or
leaves the anchor where it is. -/
def downsKeepAnchor (s : DrawState) : List DrawEvent → Bool
  | [] => true
  | .pointerDown ref e :: rest =>
    (s.tempLine.isNone || decide ((onMouseDown s ref e).startPoint = s.startPoint))
      && downsKeepAnchor (s.step (.pointerDown ref e)) rest
  | ev :: rest => downsKeepAnchor (s.step ev) rest

/-- The viewport transform is invalid at an event: there is no chart, or the
chart has no scales, or one of its axis scales is missing. -/
def transformInvalid (ref : Option ChartRefObj) : Bool :=
  match resolveChart ref with
  | none => true
  | some chart =>
    match chart.scales with
    | none => true
    | some sc => sc.x.isNone || sc.y.isNone

/-- A mounted chart that has a canvas and an x scale but no y scale. -/
def chartNoY : ChartRefObj :=
  { chartInstance := none,
    own := { options := none, ctx := none, scales := some { x := some unitScale, y := none },
             canvas := some originCanvas } }

/-- The events that take the initial state to a drag anchored at data
`(0, 100)`: the sample dataset is loaded, drawing mode is switched on, and the
pointer goes down on the chart. -/
def dragStart : List DrawEvent :=
  [.historyLoaded (.loaded (some sampleData.labels) (some sampleData.prices)), .toggle,
   .pointerDown (some (chartWith unitScale unitScale)) (mouseAt 0 100)]

/-- A drag is in progress only with drawing mode on and a dataset loaded. -/
def dragGuarded (s : DrawState) : Bool :=
  !s.isDrawing || (s.drawingEnabled && s.chartData.isSome)

/-! ## The export job: start failures, teardown and outstanding requests -/

/-- The message caught by `startCoinbaseExport` for a start round trip on
which it throws: a rejected `fetch`, a response that is not `ok` (the message
is its body text, or that of the rejected `r.text()`), a rejected `r.json()`,
or a `null` body; `none` for a reply that carries a body. -/
def StartReply.failure : StartReply → Option String
  | .fetchError m => some m
  | .notOk (.ok text) => some text
  | .notOk (.error m) => some m
  | .jsonError m => some m
  | .jsonNull => some nullMessage
  | .ok _ => none

/-- The cleanup function that the callback of
`useEffect(..., [drawingEnabled, chartData])` returns to React: the callback
has no `return` statement, so there is none. -/
def effectCleanup : Option (ExportState → ExportState) := none

/-- Unmounting `ChartDemo`: React runs the cleanup function of each effect of
the component. This effect is its only one, and the timer handle `poll` is a
local constant of `startCoinbaseExport`, out of reach of any other code. -/
def teardown (s : ExportState) : ExportState :=
  match effectCleanup with
  | none => s
  | some cleanup => cleanup s

/-- The reply ends the poll loop of the callback that handles it: the round
trip failed, or the snapshot has status `done`. -/
def StatusReply.ends : StatusReply → Bool
  | .json d => decide (d.status = "done")
  | _ => true

/-- The poll callback from its `await fetch(...)` on, for the timer `id`: what
runs once the status round trip has settled with the given outcome. -/
def pollResume (s : ExportState) (id : Nat) (reply : StatusReply) : ExportState :=
  match reply with
  | .fetchError m => pollCatch s id m
  | .jsonError m => pollCatch s id m
  | .jsonNull => pollCatch { s with cbStatus := none } id nullMessage
  | .json d =>
    let s2 : ExportState := { s with cbStatus := some d }
    if d.status = "done" then { clearInterval s2 id with exporting := false } else s2

/-- The export state together with the callbacks that are suspended at their
`await`: the timer of each outstanding status request, oldest first. -/
structure AsyncExport where
  st : ExportState
  pending : List Nat
  deriving DecidableEq, Repr

/-- The initial state, no request outstanding. -/
def AsyncExport.init : AsyncExport :=
  { st := ExportState.init, pending := [] }

/-- The interval timer `id` fires: if it is live its callback sends the status
request and suspends. -/
def pollFire (a : AsyncExport) (id : Nat) : AsyncExport :=
  match a.st.timers.find? (fun t => t.id == id) with
  | none => a
  | some t =>
    { st := { a.st with statusRequests := a.st.statusRequests ++ [t.jobId] },
      pending := a.pending ++ [id] }

/-- The outstanding request number `k` settles and its callback resumes. -/
def pollSettle (a : AsyncExport) (k : Nat) (reply : StatusReply) : AsyncExport :=
  match a.pending.get? k with
  | none => a
  | some id => { st := pollResume a.st id reply, pending := a.pending.eraseIdx k }

/-- The events of the export controls: a click on the export button (disabled
while `exporting`) with the outcome of its start request, a click on the stop
button (a request to the server, no local change), a timer firing, and the
settling of an outstanding status request. -/
inductive ExportEvent where
  | startClick (reply : StartReply)
  | stopClick
  | fire (id : Nat)
  | settle (k : Nat) (reply : StatusReply)

/-- The state after one event of the export controls. -/
def AsyncExport.step (a : AsyncExport) : ExportEvent → AsyncExport
  | .startClick reply =>
    if a.st.exporting then a else { a with st := startCoinbaseExport a.st reply }
  | .stopClick => a
  | .fire id => pollFire a id
  | .settle k reply => pollSettle a k reply

/-- The state after a sequence of events of the export controls. -/
def AsyncExport.run (a : AsyncExport) : List ExportEvent → AsyncExport
  | [] => a
  | ev :: rest => AsyncExport.run (a.step ev) rest

/-- The component is torn down in the given state; outstanding status
requests stay outstanding. -/
def AsyncExport.unmount (a : AsyncExport) : AsyncExport :=
  { a with st := teardown a.st }

/-- The state right after a successful start of job `job` from the export
state `s`, no status request outstanding. -/
def startedWith (s : ExportState) (job : Option String) : AsyncExport :=
  { st := startCoinbaseExport s (.ok job), pending := [] }

/-- No event of the sequence is a click on the export button. -/
def noStart : List ExportEvent → Bool
  | [] => true
  | .startClick _ :: _ => false
  | _ :: rest => noStart rest

/-- The status answers that callbacks handle along the sequence, in the order
in which they are handled. -/
def answered (a : AsyncExport) : List ExportEvent → List StatusReply
  | [] => []
  | .settle k reply :: rest =>
    (match a.pending.get? k with
      | some _ => [reply]
      | none => []) ++ answered (a.step (.settle k reply)) rest
  | ev :: rest => answered (a.step ev) rest

/-- Ticks of timer `0` on a slow server: the answers `running` and `done`
arrive while a later request is already outstanding. -/
def lateTicks : List ExportEvent :=
  [.fire 0, .fire 0, .settle 0 (.json (snapshotOf "running")), .fire 0,
   .settle 0 (.json (snapshotOf "done"))]

/-- Ticks of timer `0`, each answered before the next one fires: `running`,
`running`, `done`. -/
def steadyTicks : List ExportEvent :=
  [.fire 0, .settle 0 (.json (snapshotOf "running")),
   .fire 0, .settle 0 (.json (snapshotOf "running")),
   .fire 0, .settle 0 (.json (snapshotOf "done"))]

/-- A first job ends on its first answer while a second request of it is
still outstanding, and a second job is started. -/
def staleRun : List ExportEvent :=
  [.startClick (.ok (some "job-1")), .fire 0, .fire 0,
   .settle 0 (.json (snapshotOf "done")),
   .startClick (.ok (some "job-2"))]

/-- Every click on the export button that starts a job (the button is
enabled: `exporting` is false) arrives while no status request is
outstanding. Timer firings are free to overlap. -/
def startsApart (a : AsyncExport) : List ExportEvent → Bool
  | [] => true
  | .startClick reply :: rest =>
    (a.st.exporting || a.pending.isEmpty) && startsApart (a.step (.startClick reply)) rest
  | ev :: rest => startsApart (a.step ev) rest

/-- At most one timer is live, and while one is live `exporting` is set. -/
def singleTimer (s : ExportState) : Bool :=
  match s.timers with
  | [] => true
  | [_] => s.exporting
  | _ => false

/-- Every outstanding request belongs to every live timer: with one timer
live, all outstanding requests are its own. -/
def pendingOwned (a : AsyncExport) : Bool :=
  a.pending.all (fun id => a.st.timers.all (fun t => t.id == id))

/-- A first job runs with two status requests outstanding at once; the first
reports `done`, a second job is started, and then the other request of the
first job reports `done` as well. -/
def overlapRun : List ExportEvent :=
  [.startClick (.ok (some "job-1")), .fire 0, .fire 0,
   .settle 0 (.json (snapshotOf "done")),
   .startClick (.ok (some "job-2")),
   .settle 0 (.json (snapshotOf "done"))]

/-- A job on a slow server: two status requests are outstanding at once, then
the first is answered `running`. -/
def slowRun : List ExportEvent :=
  [.startClick (.ok (some "job-1")), .fire 0, .fire 0,
   .settle 0 (.json (snapshotOf "running"))]

/-! ## The moving average -/

/-- The number operations that `calcMovingAverage` uses, for a type `α` of
JavaScript numbers: the literal `0`, `+`, `/`, the number that `days` is, and
the value `undefined` that an index outside the array yields. No law is
assumed of them, so the double-precision operations are one instance. -/
structure Arith (α : Type) where
  zero : α
  add : α → α → α
  div : α → α → α
  ofInt : Int → α
  undef : α

/-- The function `calcMovingAverage(data, days)`. `days` is an integer or
absent (`none`); a `null` entry of the result is `none`. The outer loop visits
`i = 0, ..., data.length - 1`; the inner loop runs `sum += data[j]` for the
`days` indices `j = i - days + 1, ..., i`, starting from `sum = 0`, and the
entry is `sum / days`. -/
def calcMovingAverage {α : Type} (ar : Arith α) (data : List α) (days : Option Int) :
    List (Option α) :=
  match days with
  | none => []
  | some d =>
    if d = 0 ∨ d ≤ 1 then []
    else
      (List.range data.length).map (fun (i : Nat) =>
        if (i : Int) < d - 1 then none
        else
          some (ar.div
            ((List.range' (i + 1 - d.toNat) d.toNat).foldl
              (fun sum j => ar.add sum (data.getD j ar.undef)) ar.zero)
            (ar.ofInt d)))

/-- Exact rational arithmetic as an instance of the number operations. -/
def ratArith : Arith ℚ :=
  { zero := 0, add := fun x y => x + y, div := fun x y => x / y, ofInt := fun n => (n : ℚ),
    undef := 0 }

/-! ## Frame lemmas for the pointer handlers -/

theorem isFinite_ne_undefined {v : JsVal} (h : isFinite v = true) : v ≠ JsVal.undefined := by
  intro hv
  subst hv
  simp [isFinite] at h

theorem onMouseDown_eq (s : DrawState) (ref : Option ChartRefObj) (e : MouseEvent)
    (x y : JsVal) (hen : s.drawingEnabled = true) (hdata : s.chartData.isSome = true)
    (hp : pointerData ref e = some (x, y)) (hx : x ≠ JsVal.undefined)
    (hy : y ≠ JsVal.undefined) :
    onMouseDown s ref e = { s with startPoint := some { x := x, y := y }, isDrawing := true } := by
  have hnone : s.chartData.isNone = false := by
    cases h : s.chartData <;> simp_all
  unfold pointerData at hp
  unfold onMouseDown
  simp only [hen, hnone, Bool.not_true, Bool.or_self, Bool.false_eq_true, if_false]
  split at hp
  · simp at hp
  · next chart hchart =>
    split at hp
    · simp at hp
    · next cv hcv =>
      split at hp
      · next p hpd =>
        cases hp
        simp [hpd, hx, hy]
      · simp at hp

theorem onMouseMove_cases (s : DrawState) (ref : Option ChartRefObj) (e : MouseEvent) :
    onMouseMove s ref e = s ∨ ∃ l, onMouseMove s ref e = { s with tempLine := some l } := by
  unfold onMouseMove
  repeat' split
  all_goals first
    | exact Or.inl rfl
    | exact Or.inr ⟨_, rfl⟩

theorem moveAll_frame (moves : List (Option ChartRefObj × MouseEvent)) (s : DrawState) :
    (moveAll s moves).lines = s.lines ∧ (moveAll s moves).isDrawing = s.isDrawing ∧
      (moveAll s moves).startPoint = s.startPoint := by
  induction moves generalizing s with
  | nil => simp [moveAll]
  | cons m rest ih =>
    obtain ⟨ref, e⟩ := m
    simp only [moveAll]
    rcases onMouseMove_cases s ref e with h | ⟨l, h⟩
    · rw [h]; exact ih s
    · rw [h]; exact ih _

theorem onMouseUp_eq (s : DrawState) (ref : Option ChartRefObj) (e : MouseEvent)
    (sp : Point) (x y : JsVal) (hdr : s.isDrawing = true) (hsp : s.startPoint = some sp)
    (hp : pointerData ref e = some (x, y)) (hx : x ≠ JsVal.undefined)
    (hy : y ≠ JsVal.undefined) :
    onMouseUp s ref e =
      clearDrag { s with lines := s.lines ++ [{ x1 := sp.x, y1 := sp.y, x2 := x, y2 := y }] } := by
  unfold pointerData at hp
  unfold onMouseUp
  simp only [hdr, hsp, Option.isNone_some, Bool.not_true, Bool.or_self, Bool.false_eq_true,
    if_false]
  split at hp
  · simp at hp
  · next chart hchart =>
    split at hp
    · simp at hp
    · next cv hcv =>
      split at hp
      · next p hpd =>
        cases hp
        simp [onMouseUpTry, hpd, hx, hy, hsp, clearDrag]
      · simp at hp

theorem pointerData_mounted (ref : Option ChartRefObj) (e : MouseEvent) (chart : ChartObj)
    (cv : Canvas) (hchart : resolveChart ref = some chart) (hcv : chart.canvas = some cv) :
    pointerData ref e =
      match pixelToData chart cv e with
      | .ok (some p) => some p
      | _ => none := by
  simp [pointerData, hchart, hcv]

theorem onMouseUp_mounted (s : DrawState) (ref : Option ChartRefObj) (e : MouseEvent)
    (chart : ChartObj) (cv : Canvas) (hdrag : Dragging s = true)
    (hchart : resolveChart ref = some chart) (hcv : chart.canvas = some cv) :
    onMouseUp s ref e = clearDrag (onMouseUpTry s chart cv e) := by
  simp only [Dragging, Bool.and_eq_true] at hdrag
  have hsome : s.startPoint.isNone = false := by
    cases h : s.startPoint <;> simp_all
  simp [onMouseUp, hdrag.1, hsome, hchart, hcv]

theorem onMouseUpTry_rejected (s : DrawState) (chart : ChartObj) (cv : Canvas) (e : MouseEvent)
    (hrej : rejectedPoint (match pixelToData chart cv e with
      | .ok (some p) => some p
      | _ => none) = true) :
    (onMouseUpTry s chart cv e).lines = s.lines := by
  unfold onMouseUpTry
  split
  · rfl
  · rfl
  · next xVal yVal hpd =>
    simp only [hpd, rejectedPoint, decide_eq_true_eq] at hrej
    simp [hrej, clearDrag]

theorem onMouseDown_rejected (s : DrawState) (ref : Option ChartRefObj) (e : MouseEvent)
    (hrej : rejectedPoint (pointerData ref e) = true) : onMouseDown s ref e = s := by
  unfold pointerData at hrej
  unfold onMouseDown
  split
  · rfl
  · split
    · rfl
    · next chart hchart =>
      split
      · rfl
      · next cv hcv =>
        simp only [hchart, hcv] at hrej
        split
        · rfl
        · rfl
        · next xVal yVal hpd =>
          simp only [hpd, rejectedPoint, decide_eq_true_eq] at hrej
          simp [hrej]

theorem rejectedPoint_false (r : Option (JsVal × JsVal)) (h : rejectedPoint r = false) :
    ∃ x y, r = some (x, y) ∧ x ≠ JsVal.undefined ∧ y ≠ JsVal.undefined := by
  cases r with
  | none => simp [rejectedPoint] at h
  | some p =>
    obtain ⟨x, y⟩ := p
    simp only [rejectedPoint, decide_eq_false_iff_not, not_or] at h
    exact ⟨x, y, rfl, h.1, h.2⟩

theorem onMouseDown_cases (s : DrawState) (ref : Option ChartRefObj) (e : MouseEvent) :
    onMouseDown s ref e = s ∨
      (s.drawingEnabled = true ∧ s.chartData.isSome = true ∧
        ∃ p, onMouseDown s ref e = { s with startPoint := some p, isDrawing := true }) := by
  unfold onMouseDown
  split
  · exact Or.inl rfl
  · next hguard =>
    have hg : s.drawingEnabled = true ∧ s.chartData.isSome = true := by
      cases hen : s.drawingEnabled <;> cases hcd : s.chartData <;> simp_all
    repeat' split
    all_goals first
      | exact Or.inl rfl
      | exact Or.inr ⟨hg.1, hg.2, _, rfl⟩

theorem onMouseMove_cases_anchor (s : DrawState) (ref : Option ChartRefObj) (e : MouseEvent) :
    onMouseMove s ref e = s ∨
      ∃ sp x y, s.isDrawing = true ∧ s.startPoint = some sp ∧
        onMouseMove s ref e
          = { s with tempLine := some { x1 := sp.x, y1 := sp.y, x2 := x, y2 := y } } := by
  unfold onMouseMove
  split
  · exact Or.inl rfl
  · next hguard =>
    have hdr : s.isDrawing = true := by
      cases hd : s.isDrawing <;> simp_all
    repeat' split
    all_goals first
      | exact Or.inl rfl
      | exact Or.inr ⟨_, _, _, hdr, by assumption, rfl⟩

theorem onMouseUpTry_cases (s : DrawState) (chart : ChartObj) (cv : Canvas) (e : MouseEvent) :
    onMouseUpTry s chart cv e = s ∨ onMouseUpTry s chart cv e = clearDrag s ∨
      ∃ l, onMouseUpTry s chart cv e = { s with lines := s.lines ++ [l] } := by
  unfold onMouseUpTry
  repeat' split
  all_goals first
    | exact Or.inl rfl
    | exact Or.inr (Or.inl rfl)
    | exact Or.inr (Or.inr ⟨_, rfl⟩)

theorem onMouseUp_cases (s : DrawState) (ref : Option ChartRefObj) (e : MouseEvent) :
    onMouseUp s ref e = s ∨ ∃ ls, onMouseUp s ref e = clearDrag { s with lines := ls } := by
  unfold onMouseUp
  split
  · exact Or.inl rfl
  · split
    · exact Or.inl rfl
    · next chart _ =>
      split
      · exact Or.inl rfl
      · next cv _ =>
        rcases onMouseUpTry_cases s chart cv e with h | h | ⟨l, h⟩
        · exact Or.inr ⟨s.lines, by rw [h]⟩
        · exact Or.inr ⟨s.lines, by rw [h]; rfl⟩
        · exact Or.inr ⟨s.lines ++ [l], by rw [h]⟩

/-! ## Invariants of the event loop of the overlay -/

theorem step_preserves (s : DrawState) (ev : DrawEvent) (hflags : flagsConsistent s = true)
    (hguard : dragGuarded s = true) :
    flagsConsistent (s.step ev) = true ∧ dragGuarded (s.step ev) = true := by
  cases ev with
  | pointerDown ref e =>
    simp only [DrawState.step]
    rcases onMouseDown_cases s ref e with h | ⟨hen, hcd, p, h⟩
    · rw [h]; exact ⟨hflags, hguard⟩
    · rw [h]
      obtain ⟨en, cd, ls, dr, tl, sp⟩ := s
      simp_all [flagsConsistent, dragGuarded, Dragging]
  | pointerMove ref e =>
    simp only [DrawState.step]
    rcases onMouseMove_cases_anchor s ref e with h | ⟨sp, x, y, hdr, hsp, h⟩
    · rw [h]; exact ⟨hflags, hguard⟩
    · rw [h]
      obtain ⟨en, cd, ls, dr, tl, sp0⟩ := s
      simp_all [flagsConsistent, dragGuarded, Dragging]
  | pointerUp ref e =>
    simp only [DrawState.step]
    rcases onMouseUp_cases s ref e with h | ⟨ls, h⟩
    · rw [h]; exact ⟨hflags, hguard⟩
    · rw [h]
      simp [flagsConsistent, dragGuarded, Dragging, clearDrag]
  | toggle =>
    obtain ⟨en, cd, ls, dr, tl, sp⟩ := s
    cases en <;> cases cd <;>
      simp_all [DrawState.step, toggleClick, toggleDrawing, drawingEffect, flagsConsistent,
        dragGuarded, Dragging]
  | clearLines =>
    simp only [DrawState.step, clearLinesClick]
    split
    · exact ⟨hflags, hguard⟩
    · exact ⟨hflags, hguard⟩
  | historyLoaded reply =>
    cases reply with
    | failed m => exact ⟨hflags, hguard⟩
    | loaded labels data =>
      simp [DrawState.step, loadHistory, resetDrawing, drawingEffect, flagsConsistent,
        dragGuarded, Dragging]
  | csvLoaded reply =>
    cases reply with
    | failed m => exact ⟨hflags, hguard⟩
    | json available labels data =>
      simp only [DrawState.step, loadCsvHistory]
      split
      · exact ⟨hflags, hguard⟩
      · simp [resetDrawing, drawingEffect, flagsConsistent, dragGuarded, Dragging]

theorem run_preserves (evs : List DrawEvent) (s : DrawState)
    (hflags : flagsConsistent s = true) (hguard : dragGuarded s = true) :
    flagsConsistent (s.run evs) = true ∧ dragGuarded (s.run evs) = true := by
  induction evs generalizing s with
  | nil => exact ⟨hflags, hguard⟩
  | cons ev rest ih =>
    have h := step_preserves s ev hflags hguard
    exact ih (s.step ev) h.1 h.2

theorem onMouseMove_rejected (s : DrawState) (ref : Option ChartRefObj) (e : MouseEvent)
    (hrej : rejectedPoint (pointerData ref e) = true) : onMouseMove s ref e = s := by
  unfold pointerData at hrej
  unfold onMouseMove
  split
  · rfl
  · split
    · rfl
    · next chart hchart =>
      split
      · rfl
      · next cv hcv =>
        simp only [hchart, hcv] at hrej
        split
        · rfl
        · rfl
        · next xVal yVal hpd =>
          simp only [hpd, rejectedPoint, decide_eq_true_eq] at hrej
          simp [hrej]

theorem pointerData_invalid (ref : Option ChartRefObj) (e : MouseEvent)
    (hinv : transformInvalid ref = true) : pointerData ref e = none := by
  unfold transformInvalid at hinv
  unfold pointerData
  cases hchart : resolveChart ref with
  | none => rfl
  | some chart =>
    simp only [hchart] at hinv
    cases hcv : chart.canvas with
    | none => simp [hcv]
    | some cv =>
      cases hrect : cv.getBoundingClientRect with
      | error m => simp [hcv, pixelToData, hrect]
      | ok rect =>
        cases hsc : chart.scales with
        | none => simp [hcv, pixelToData, hrect, hsc]
        | some sc =>
          simp only [hsc] at hinv
          cases hx : sc.x <;> cases hy : sc.y <;> simp_all [pixelToData]

theorem onMouseUp_unconverted (s : DrawState) (ref : Option ChartRefObj) (e : MouseEvent)
    (hnone : pointerData ref e = none) :
    onMouseUp s ref e = s ∨ onMouseUp s ref e = clearDrag s := by
  unfold pointerData at hnone
  unfold onMouseUp
  split
  · exact Or.inl rfl
  · split
    · exact Or.inl rfl
    · next chart hchart =>
      split
      · exact Or.inl rfl
      · next cv hcv =>
        simp only [hchart, hcv] at hnone
        right
        unfold onMouseUpTry
        split
        · rfl
        · rfl
        · next xVal yVal hpd => simp [hpd] at hnone

theorem step_anchored (s : DrawState) (ev : DrawEvent) (hanch : draftAnchored s = true)
    (hdown : ∀ ref e, ev = DrawEvent.pointerDown ref e →
      s.tempLine = none ∨ (onMouseDown s ref e).startPoint = s.startPoint) :
    draftAnchored (s.step ev) = true := by
  cases ev with
  | pointerDown ref e =>
    simp only [DrawState.step]
    rcases onMouseDown_cases s ref e with h | ⟨_, _, p, h⟩
    · rw [h]; exact hanch
    · rcases hdown ref e rfl with hnone | hsame
      · rw [h]
        simp [draftAnchored, hnone]
      · rw [h] at hsame ⊢
        simp only at hsame
        simp only [draftAnchored, hsame]
        exact hanch
  | pointerMove ref e =>
    simp only [DrawState.step]
    rcases onMouseMove_cases_anchor s ref e with h | ⟨sp, x, y, hdr, hsp, h⟩
    · rw [h]; exact hanch
    · rw [h]
      simp [draftAnchored, hsp]
  | pointerUp ref e =>
    simp only [DrawState.step]
    rcases onMouseUp_cases s ref e with h | ⟨ls, h⟩
    · rw [h]; exact hanch
    · rw [h]
      simp [draftAnchored, clearDrag]
  | toggle =>
    obtain ⟨en, cd, ls, dr, tl, sp⟩ := s
    cases en <;> cases cd <;>
      simp_all [DrawState.step, toggleClick, toggleDrawing, drawingEffect, draftAnchored]
  | clearLines =>
    simp only [DrawState.step, clearLinesClick]
    split
    · exact hanch
    · exact hanch
  | historyLoaded reply =>
    cases reply with
    | failed m => exact hanch
    | loaded labels data =>
      simp [DrawState.step, loadHistory, resetDrawing, drawingEffect, draftAnchored]
  | csvLoaded reply =>
    cases reply with
    | failed m => exact hanch
    | json available labels data =>
      simp only [DrawState.step, loadCsvHistory]
      split
      · exact hanch
      · simp [resetDrawing, drawingEffect, draftAnchored]

theorem run_anchored (evs : List DrawEvent) (s : DrawState)
    (hanch : draftAnchored s = true) (hdisc : downsKeepAnchor s evs = true) :
    draftAnchored (s.run evs) = true := by
  induction evs generalizing s with
  | nil => exact hanch
  | cons ev rest ih =>
    cases ev with
    | pointerDown ref e =>
      simp only [downsKeepAnchor, Bool.and_eq_true, Bool.or_eq_true, Option.isNone_iff_eq_none,
        decide_eq_true_eq] at hdisc
      refine ih _ (step_anchored s _ hanch ?_) hdisc.2
      intro ref0 e0 h
      cases h
      exact hdisc.1
    | pointerMove ref e =>
      exact ih _ (step_anchored s _ hanch (fun _ _ h => by cases h)) hdisc
    | pointerUp ref e =>
      exact ih _ (step_anchored s _ hanch (fun _ _ h => by cases h)) hdisc
    | toggle =>
      exact ih _ (step_anchored s _ hanch (fun _ _ h => by cases h)) hdisc
    | clearLines =>
      exact ih _ (step_anchored s _ hanch (fun _ _ h => by cases h)) hdisc
    | historyLoaded reply =>
      exact ih _ (step_anchored s _ hanch (fun _ _ h => by cases h)) hdisc
    | csvLoaded reply =>
      exact ih _ (step_anchored s _ hanch (fun _ _ h => by cases h)) hdisc

/-! ## Lemmas on the render pass -/

theorem Ctx.run_sound (ops : List CtxOp) (c : Ctx) (hc : ∀ h op, c.faulty h op = false) :
    c.run ops = ({ c with log := c.log ++ ops }, none) := by
  induction ops generalizing c with
  | nil => simp [Ctx.run]
  | cons op rest ih =>
    simp only [Ctx.run, hc, Bool.false_eq_true, if_false]
    rw [ih { c with log := c.log ++ [op] } hc]
    simp

theorem drawOne_sound (scales : Option Scales) (c : Ctx) (l : Line) (color : String)
    (hc : ∀ h op, c.faulty h op = false) :
    (drawOne scales c l color).1 = { c with log := c.log ++ strokeCalls scales color l } := by
  rcases scales with _ | ⟨_ | sx, _ | sy⟩
  · simp [drawOne, strokeCalls, pixelEnds]
  · simp [drawOne, strokeCalls, pixelEnds]
  · simp [drawOne, strokeCalls, pixelEnds]
  · simp [drawOne, strokeCalls, pixelEnds]
  · simp only [drawOne, strokeCalls, pixelEnds]
    cases h1 : sx.getPixelForValue l.x1 <;> cases h2 : sx.getPixelForValue l.x2 <;>
      cases h3 : sy.getPixelForValue l.y1 <;> cases h4 : sy.getPixelForValue l.y2 <;>
      simp only [List.append_nil]
    next x1 x2 y1 y2 =>
      cases hx1 : isFinite x1 <;> cases hx2 : isFinite x2 <;> cases hy1 : isFinite y1 <;>
        cases hy2 : isFinite y2 <;> simp [Ctx.run_sound _ c hc]

theorem drawSaved_sound (scales : Option Scales) (lines : List Line) (c : Ctx)
    (hc : ∀ h op, c.faulty h op = false) :
    drawSaved scales c lines
      = { c with log := c.log ++ (lines.map (strokeCalls scales savedColor)).flatten } := by
  induction lines generalizing c with
  | nil => simp [drawSaved]
  | cons l rest ih =>
    simp only [drawSaved, drawOne_sound scales c l savedColor hc]
    rw [ih { c with log := c.log ++ strokeCalls scales savedColor l } hc]
    simp

theorem drawTemp_sound (scales : Option Scales) (temp : Option Line) (c : Ctx)
    (hc : ∀ h op, c.faulty h op = false) :
    drawTemp scales c temp
      = { c with log := c.log ++ (match temp with
                                  | none => []
                                  | some t => strokeCalls scales tempColor t) } := by
  cases temp with
  | none => simp [drawTemp]
  | some t => simp [drawTemp, drawOne_sound scales c t tempColor hc]

/-! ## Lemmas on the poll timer -/

theorem pollTick_dead (s : ExportState) (id : Nat) (reply : StatusReply)
    (h : s.timers.find? (fun t => t.id == id) = none) : pollTick s id reply = s := by
  simp [pollTick, h]

theorem pollAll_dead (ticks : List (Nat × StatusReply)) (s : ExportState)
    (h : ∀ tk ∈ ticks, s.timers.find? (fun t => t.id == tk.1) = none) :
    pollAll s ticks = s := by
  induction ticks with
  | nil => rfl
  | cons tk rest ih =>
    obtain ⟨id, reply⟩ := tk
    simp only [pollAll]
    rw [pollTick_dead s id reply (h (id, reply) (List.mem_cons_self _ _))]
    exact ih (fun tk htk => h tk (List.mem_cons_of_mem _ htk))

theorem find_after_clear (ts : List Timer) (id : Nat) :
    (ts.filter (fun t => t.id != id)).find? (fun t => t.id == id) = none := by
  simp [List.find?_eq_none, List.mem_filter]

/-! ## Lemmas on outstanding status requests -/

theorem pollTick_eq_fire_settle (s : ExportState) (id : Nat) (reply : StatusReply) :
    pollTick s id reply = (pollSettle (pollFire { st := s, pending := [] } id) 0 reply).st := by
  unfold pollTick pollFire
  cases hfind : s.timers.find? (fun t => t.id == id) with
  | none => simp [pollSettle]
  | some t =>
    simp only [pollSettle, List.nil_append, List.get?_cons_zero, pollResume]

theorem startCoinbaseExport_single (s : ExportState) (reply : StartReply)
    (hno : s.timers = []) : singleTimer (startCoinbaseExport s reply) = true := by
  cases reply with
  | fetchError m => simp [startCoinbaseExport, singleTimer, hno]
  | notOk text => cases text <;> simp [startCoinbaseExport, singleTimer, hno]
  | jsonError m => simp [startCoinbaseExport, singleTimer, hno]
  | jsonNull => simp [startCoinbaseExport, singleTimer, hno]
  | ok job => simp [startCoinbaseExport, singleTimer, hno]

theorem pollResume_single (s : ExportState) (t : Timer) (reply : StatusReply)
    (hone : s.timers = [t]) (hex : s.exporting = true) :
    singleTimer (pollResume s t.id reply) = true := by
  cases reply with
  | fetchError m => simp [pollResume, pollCatch, clearInterval, singleTimer, hone]
  | jsonError m => simp [pollResume, pollCatch, clearInterval, singleTimer, hone]
  | jsonNull => simp [pollResume, pollCatch, clearInterval, singleTimer, hone]
  | json d =>
    simp only [pollResume]
    split
    · simp [clearInterval, singleTimer, hone]
    · simp [singleTimer, hone, hex]

theorem pollResume_timers (s : ExportState) (id : Nat) (reply : StatusReply) :
    (pollResume s id reply).timers = s.timers
      ∨ (pollResume s id reply).timers = s.timers.filter (fun t => t.id != id) := by
  cases reply with
  | fetchError m => exact Or.inr rfl
  | jsonError m => exact Or.inr rfl
  | jsonNull => exact Or.inr rfl
  | json d =>
    simp only [pollResume]
    split
    · exact Or.inr rfl
    · exact Or.inl rfl

theorem pollResume_requests (s : ExportState) (id : Nat) (reply : StatusReply) :
    (pollResume s id reply).statusRequests = s.statusRequests := by
  cases reply with
  | fetchError m => rfl
  | jsonError m => rfl
  | jsonNull => rfl
  | json d =>
    simp only [pollResume]
    split <;> rfl

theorem pollResume_mem (s : ExportState) (id : Nat) (reply : StatusReply) (t : Timer)
    (ht : t ∈ (pollResume s id reply).timers) : t ∈ s.timers := by
  rcases pollResume_timers s id reply with h | h
  · rw [h] at ht; exact ht
  · rw [h] at ht; exact (List.mem_filter.mp ht).1

theorem async_step_preserves (a : AsyncExport) (ev : ExportEvent)
    (hsingle : singleTimer a.st = true) (hown : pendingOwned a = true)
    (hstart : ∀ reply, ev = ExportEvent.startClick reply →
      a.st.exporting = true ∨ a.pending = []) :
    singleTimer (a.step ev).st = true ∧ pendingOwned (a.step ev) = true := by
  obtain ⟨s, pending⟩ := a
  simp only [pendingOwned, List.all_eq_true, beq_iff_eq] at hown ⊢
  cases ev with
  | stopClick => exact ⟨hsingle, hown⟩
  | startClick reply =>
    simp only [AsyncExport.step]
    split
    · exact ⟨hsingle, hown⟩
    · next hex =>
      have hp : pending = [] := by
        rcases hstart reply rfl with h | h
        · exact absurd h hex
        · exact h
      subst hp
      have hno : s.timers = [] := by
        simp only [singleTimer] at hsingle
        split at hsingle
        · assumption
        · simp_all
        · simp at hsingle
      exact ⟨startCoinbaseExport_single s reply hno, by simp⟩
  | fire id =>
    simp only [AsyncExport.step, pollFire]
    cases hfind : s.timers.find? (fun t => t.id == id) with
    | none => exact ⟨hsingle, hown⟩
    | some t =>
      refine ⟨hsingle, ?_⟩
      intro x hx t0 ht0
      simp only [List.mem_append, List.mem_singleton] at hx
      rcases hx with hx | hx
      · exact hown x hx t0 ht0
      · subst hx
        have hmem := List.mem_of_find?_eq_some hfind
        have hid : t.id = x := by
          have := List.find?_some hfind
          simpa using this
        cases hts : s.timers with
        | nil => rw [hts] at ht0; cases ht0
        | cons t1 rest =>
          cases rest with
          | nil =>
            rw [hts] at ht0 hmem
            simp only [List.mem_singleton] at ht0 hmem
            rw [ht0, ← hmem]
            exact hid
          | cons t2 rest2 => simp [singleTimer, hts] at hsingle
  | settle k reply =>
    simp only [AsyncExport.step, pollSettle]
    cases hget : pending.get? k with
    | none => exact ⟨hsingle, hown⟩
    | some x =>
      have hxmem : x ∈ pending := List.get?_mem hget
      simp only
      constructor
      · cases hts : s.timers with
        | nil =>
          have hnil : (pollResume s x reply).timers = [] := by
            rcases pollResume_timers s x reply with h | h <;> rw [h, hts]
            rfl
          simp [singleTimer, hnil]
        | cons t1 rest =>
          cases rest with
          | cons t2 rest2 => simp [singleTimer, hts] at hsingle
          | nil =>
            have hx : t1.id = x := hown x hxmem t1 (by rw [hts]; exact List.mem_singleton.mpr rfl)
            simp only [singleTimer, hts] at hsingle
            rw [← hx]
            exact pollResume_single s t1 reply hts hsingle
      · intro y hy t0 ht0
        exact hown y (List.mem_of_mem_eraseIdx hy) t0 (pollResume_mem s x reply t0 ht0)

theorem async_run_preserves (evs : List ExportEvent) (a : AsyncExport)
    (hsingle : singleTimer a.st = true) (hown : pendingOwned a = true)
    (hapart : startsApart a evs = true) :
    singleTimer (a.run evs).st = true := by
  induction evs generalizing a with
  | nil => exact hsingle
  | cons ev rest ih =>
    cases ev with
    | startClick reply =>
      simp only [startsApart, Bool.and_eq_true, Bool.or_eq_true, List.isEmpty_iff] at hapart
      have h := async_step_preserves a (.startClick reply) hsingle hown (fun _ _ => hapart.1)
      exact ih _ h.1 h.2 hapart.2
    | fire id =>
      have h := async_step_preserves a (.fire id) hsingle hown (fun _ h => by cases h)
      exact ih _ h.1 h.2 hapart
    | stopClick =>
      have h := async_step_preserves a .stopClick hsingle hown (fun _ h => by cases h)
      exact ih _ h.1 h.2 hapart
    | settle k reply =>
      have h := async_step_preserves a (.settle k reply) hsingle hown (fun _ h => by cases h)
      exact ih _ h.1 h.2 hapart

theorem find_filter_other (ts : List Timer) (id x : Nat) (hne : x ≠ id) :
    (ts.filter (fun t => t.id != x)).find? (fun t => t.id == id)
      = ts.find? (fun t => t.id == id) := by
  induction ts with
  | nil => rfl
  | cons t rest ih =>
    by_cases hx : t.id = x
    · have hid : ¬ (t.id = id) := fun h => hne (hx ▸ h)
      simp [List.filter_cons, List.find?_cons, hx, hne, ih]
    · by_cases hid : t.id = id
      · have hne2 : ¬ (id = x) := fun h => hne h.symm
        simp [List.filter_cons, List.find?_cons, hid, hne2]
      · simp [List.filter_cons, List.find?_cons, hx, hid, ih]

theorem pollResume_ends (s : ExportState) (id : Nat) (reply : StatusReply)
    (hends : reply.ends = true) :
    (pollResume s id reply).timers = s.timers.filter (fun t => t.id != id) := by
  cases reply with
  | fetchError m => rfl
  | jsonError m => rfl
  | jsonNull => rfl
  | json d =>
    simp only [StatusReply.ends, decide_eq_true_eq] at hends
    simp [pollResume, hends, clearInterval]

theorem pollResume_goes_on (s : ExportState) (id : Nat) (reply : StatusReply)
    (hends : reply.ends = false) : (pollResume s id reply).timers = s.timers := by
  cases reply with
  | fetchError m => simp [StatusReply.ends] at hends
  | jsonError m => simp [StatusReply.ends] at hends
  | jsonNull => simp [StatusReply.ends] at hends
  | json d =>
    simp only [StatusReply.ends, decide_eq_false_iff_not] at hends
    simp [pollResume, hends]

/-! ## Lemmas on runs of one job -/

theorem pollFire_dead (a : AsyncExport) (id : Nat) (hno : a.st.timers = []) :
    pollFire a id = a := by
  simp [pollFire, hno]

theorem pollResume_timers_nil (s : ExportState) (id : Nat) (reply : StatusReply)
    (hno : s.timers = []) : (pollResume s id reply).timers = [] := by
  rcases pollResume_timers s id reply with h | h <;> rw [h, hno]
  rfl

theorem quiet_run (evs : List ExportEvent) (a : AsyncExport) (hno : a.st.timers = [])
    (hns : noStart evs = true) :
    (a.run evs).st.timers = [] ∧ (a.run evs).st.statusRequests = a.st.statusRequests
      ∧ (answered a evs = [] → a.run evs = a) := by
  induction evs generalizing a with
  | nil => exact ⟨hno, rfl, fun _ => rfl⟩
  | cons ev rest ih =>
    cases ev with
    | startClick reply => simp [noStart] at hns
    | stopClick => exact ih a hno hns
    | fire id =>
      simp only [AsyncExport.run, AsyncExport.step, answered, pollFire_dead a id hno]
      exact ih a hno hns
    | settle k reply =>
      simp only [AsyncExport.run, AsyncExport.step, answered, pollSettle]
      cases hget : a.pending.get? k with
      | none =>
        simp only [List.nil_append]
        exact ih a hno hns
      | some x =>
        have h := ih { st := pollResume a.st x reply, pending := a.pending.eraseIdx k }
          (pollResume_timers_nil a.st x reply hno) hns
        refine ⟨h.1, ?_, ?_⟩
        · rw [h.2.1]
          exact pollResume_requests a.st x reply
        · intro habs
          simp at habs

theorem live_on (evs : List ExportEvent) (a : AsyncExport) (hns : noStart evs = true)
    (hall : ∀ r ∈ answered a evs, ∃ d, r = StatusReply.json d ∧ d.status = "running") :
    (a.run evs).st.timers = a.st.timers := by
  induction evs generalizing a with
  | nil => rfl
  | cons ev rest ih =>
    cases ev with
    | startClick reply => simp [noStart] at hns
    | stopClick => exact ih a hns hall
    | fire id =>
      simp only [AsyncExport.run, AsyncExport.step, answered] at hall ⊢
      rw [ih (pollFire a id) hns hall]
      unfold pollFire
      split <;> rfl
    | settle k reply =>
      simp only [AsyncExport.run, AsyncExport.step, answered, pollSettle] at hall ⊢
      cases hget : a.pending.get? k with
      | none =>
        simp only [hget, List.nil_append] at hall
        exact ih a hns hall
      | some x =>
        simp only [hget] at hall
        obtain ⟨d, hd, hst⟩ := hall reply (by simp)
        rw [ih _ hns (fun r hr => hall r (by simp [hr]))]
        subst hd
        have hne : ¬ (d.status = "done") := by rw [hst]; decide
        simp [pollResume, hne]

theorem live_run (evs : List ExportEvent) (a : AsyncExport) (id : Nat) (job : Option String)
    (running : List Snapshot) (final : Snapshot)
    (hlive : a.st.timers = [{ id := id, jobId := job }]) (hpend : ∀ x ∈ a.pending, x = id)
    (hrun : ∀ d ∈ running, d.status = "running") (hdone : final.status = "done")
    (hns : noStart evs = true)
    (hans : answered a evs = running.map StatusReply.json ++ [StatusReply.json final]) :
    ∃ n, (a.run evs).st.statusRequests = a.st.statusRequests ++ List.replicate n job
      ∧ n + a.pending.length = running.length + 1 + (a.run evs).pending.length
      ∧ (a.run evs).st.timers = [] ∧ (a.run evs).st.exporting = false
      ∧ (a.run evs).st.cbStatus = some final := by
  induction evs generalizing a running with
  | nil => simp [answered] at hans
  | cons ev rest ih =>
    cases ev with
    | startClick reply => simp [noStart] at hns
    | stopClick => exact ih a running hlive hpend hrun hns hans
    | fire i =>
      simp only [AsyncExport.run, AsyncExport.step, answered] at hans ⊢
      by_cases hi : id = i
      · subst hi
        have hfire : pollFire a id
            = { st := { a.st with statusRequests := a.st.statusRequests ++ [job] },
                pending := a.pending ++ [id] } := by
          simp [pollFire, hlive]
        have ht : (pollFire a id).st.timers = [{ id := id, jobId := job }] := by
          rw [hfire]; exact hlive
        have hp : ∀ x ∈ (pollFire a id).pending, x = id := by
          rw [hfire]
          intro x hx
          simp only [List.mem_append, List.mem_singleton] at hx
          rcases hx with hx | hx
          · exact hpend x hx
          · exact hx
        have hr : (pollFire a id).st.statusRequests = a.st.statusRequests ++ [job] := by
          rw [hfire]
        have hl : (pollFire a id).pending.length = a.pending.length + 1 := by
          rw [hfire]; simp
        obtain ⟨n, hreq, hcount, hrest⟩ := ih (pollFire a id) running ht hp hrun hns hans
        refine ⟨n + 1, ?_, ?_, hrest⟩
        · rw [hreq, hr]
          simp [List.replicate_succ]
        · omega
      · have hfire : pollFire a i = a := by
          simp [pollFire, hlive, hi]
        rw [hfire] at hans ⊢
        exact ih a running hlive hpend hrun hns hans
    | settle k reply =>
      simp only [AsyncExport.run, AsyncExport.step, answered] at hans ⊢
      cases hget : a.pending.get? k with
      | none =>
        have hs : pollSettle a k reply = a := by simp only [pollSettle, hget]
        simp only [hget, List.nil_append] at hans
        rw [hs] at hans ⊢
        exact ih a running hlive hpend hrun hns hans
      | some x =>
        simp only [hget] at hans
        have hx : x = id := hpend x (List.get?_mem hget)
        subst hx
        have hs : pollSettle a k reply
            = { st := pollResume a.st x reply, pending := a.pending.eraseIdx k } := by
          simp only [pollSettle, hget]
        have hklt : k < a.pending.length := by
          rcases Nat.lt_or_ge k a.pending.length with h | h
          · exact h
          · rw [List.get?_eq_none.mpr h] at hget
            cases hget
        have hlen : (pollSettle a k reply).pending.length + 1 = a.pending.length := by
          rw [hs]
          simp only [List.length_eraseIdx, hklt, if_true]
          omega
        have hpend2 : ∀ y ∈ (pollSettle a k reply).pending, y = x := by
          rw [hs]
          exact fun y hy => hpend y (List.mem_of_mem_eraseIdx hy)
        have hreq2 : (pollSettle a k reply).st.statusRequests = a.st.statusRequests := by
          rw [hs]
          exact pollResume_requests a.st x reply
        cases running with
        | nil =>
          simp only [List.map_nil, List.nil_append, List.singleton_append,
            List.cons.injEq] at hans
          obtain ⟨hreply, hnone⟩ := hans
          subst hreply
          have hgone : (pollSettle a k (.json final)).st.timers = [] := by
            rw [hs]
            simp [pollResume, hdone, clearInterval, hlive]
          have hexp : (pollSettle a k (.json final)).st.exporting = false := by
            rw [hs]
            simp [pollResume, hdone, clearInterval]
          have hcb : (pollSettle a k (.json final)).st.cbStatus = some final := by
            rw [hs]
            simp [pollResume, hdone, clearInterval]
          have hq := quiet_run rest (pollSettle a k (.json final)) hgone hns
          rw [hq.2.2 hnone]
          refine ⟨0, by simp [hreq2], ?_, hgone, hexp, hcb⟩
          simp only [List.length_nil]
          omega
        | cons d ds =>
          simp only [List.map_cons, List.cons_append, List.singleton_append,
            List.cons.injEq] at hans
          obtain ⟨hreply, hans2⟩ := hans
          subst hreply
          have hd : d.status = "running" := hrun d (List.mem_cons_self _ _)
          have hne : ¬ (d.status = "done") := by rw [hd]; decide
          have hlive2 : (pollSettle a k (.json d)).st.timers = [{ id := x, jobId := job }] := by
            rw [hs]
            simp [pollResume, hne, hlive]
          obtain ⟨n, hreq, hcount, hrest⟩ := ih (pollSettle a k (.json d)) ds hlive2 hpend2
            (fun d0 hd0 => hrun d0 (List.mem_cons_of_mem _ hd0)) hns hans2
          refine ⟨n, by rw [hreq, hreq2], ?_, hrest⟩
          simp only [List.length_cons] at hcount ⊢
          omega

/-! ## Lemmas on the moving average -/

theorem window_foldl {α : Type} (ar : Arith α) (data : List α) (n start : Nat) (acc : α)
    (hin : start + n ≤ data.length) :
    (List.range' start n).foldl (fun sum j => ar.add sum (data.getD j ar.undef)) acc
      = ((data.drop start).take n).foldl ar.add acc := by
  induction n generalizing start acc with
  | zero => simp
  | succ n ih =>
    have hlt : start < data.length := by omega
    rw [List.range'_succ, List.foldl_cons, ih (start + 1) _ (by omega)]
    rw [List.drop_eq_getElem_cons hlt, List.take_succ_cons, List.foldl_cons,
      List.getD_eq_getElem data ar.undef hlt]

/-! ## The drag state machine -/

/-- C1 (drag commit law). With drawing mode on and a dataset loaded (and the
machine idle or not), a pointerDown that converts to the data point `A`, then
any pointerMove events at all, valid or not, then a pointerUp that converts to
the data point `C`, leave the
committed lines equal to the previous ones with the single line
`{x1: A.x, y1: A.y, x2: C.x, y2: C.y}` appended, no draft, no anchor and the
machine idle; after every intermediate pointerMove the committed lines are
still the previous ones. -/
theorem drag_commit_law (s : DrawState) (refA refC : Option ChartRefObj) (eA eC : MouseEvent)
    (moves : List (Option ChartRefObj × MouseEvent)) (A C : Point)
    (hen : s.drawingEnabled = true) (hdata : s.chartData.isSome = true)
    (hA : pointerData refA eA = some (A.x, A.y))
    (hAfin : isFinite A.x = true ∧ isFinite A.y = true)
    (hC : pointerData refC eC = some (C.x, C.y))
    (hCfin : isFinite C.x = true ∧ isFinite C.y = true) :
    (onMouseUp (moveAll (onMouseDown s refA eA) moves) refC eC).lines
        = s.lines ++ [{ x1 := A.x, y1 := A.y, x2 := C.x, y2 := C.y }]
      ∧ (onMouseUp (moveAll (onMouseDown s refA eA) moves) refC eC).tempLine = none
      ∧ (onMouseUp (moveAll (onMouseDown s refA eA) moves) refC eC).isDrawing = false
      ∧ (onMouseUp (moveAll (onMouseDown s refA eA) moves) refC eC).startPoint = none
      ∧ ∀ k, (moveAll (onMouseDown s refA eA) (moves.take k)).lines = s.lines := by
  have hdown := onMouseDown_eq s refA eA A.x A.y hen hdata hA
    (isFinite_ne_undefined hAfin.1) (isFinite_ne_undefined hAfin.2)
  have hframe := moveAll_frame moves (onMouseDown s refA eA)
  have hdr : (moveAll (onMouseDown s refA eA) moves).isDrawing = true := by
    rw [hframe.2.1, hdown]
  have hsp : (moveAll (onMouseDown s refA eA) moves).startPoint = some A := by
    rw [hframe.2.2, hdown]
  have hup := onMouseUp_eq (moveAll (onMouseDown s refA eA) moves) refC eC A C.x C.y hdr hsp hC
    (isFinite_ne_undefined hCfin.1) (isFinite_ne_undefined hCfin.2)
  refine ⟨?_, ?_, ?_, ?_, ?_⟩
  · rw [hup]
    simp only [clearDrag]
    rw [hframe.1, hdown]
  · rw [hup]; rfl
  · rw [hup]; rfl
  · rw [hup]; rfl
  · intro k
    rw [(moveAll_frame (moves.take k) (onMouseDown s refA eA)).1, hdown]

/-- C1 on the scenario of the testable properties: no earlier line, a press
at data `(0, 100)` (label index 0 is `2023-01`), two moves, a release at data
`(2, 90)` (label index 2 is `2023-03`). -/
theorem drag_commit_law_witness :
    (onMouseUp (moveAll (onMouseDown (idleWith []) (some (chartWith unitScale unitScale))
        (mouseAt 0 100))
        [(some (chartWith unitScale unitScale), mouseAt 1 110),
         (some (chartWith unitScale unitScale), mouseAt 2 95)])
        (some (chartWith unitScale unitScale)) (mouseAt 2 90)).lines
      = [lineOf 0 100 2 90] :=
  (drag_commit_law (idleWith []) (some (chartWith unitScale unitScale))
    (some (chartWith unitScale unitScale)) (mouseAt 0 100) (mouseAt 2 90)
    [(some (chartWith unitScale unitScale), mouseAt 1 110),
     (some (chartWith unitScale unitScale), mouseAt 2 95)]
    { x := dataVal 0, y := dataVal 100 } { x := dataVal 2, y := dataVal 90 }
    rfl rfl rfl ⟨rfl, rfl⟩ rfl ⟨rfl, rfl⟩).1

/-- C5 (mode-off clears). From any state with drawing mode on, whatever its
committed lines, the drawing toggle leaves drawing mode off and the
committed-lines sequence empty. -/
theorem mode_off_clears (s : DrawState) (hen : s.drawingEnabled = true) :
    (toggleDrawing s).drawingEnabled = false ∧ (toggleDrawing s).lines = [] := by
  simp [toggleDrawing, drawingEffect, hen]

/-- C5 on a state holding two committed lines. -/
theorem mode_off_clears_witness :
    (toggleDrawing (idleWith [lineOf 0 100 2 90, lineOf 1 110 2 90])).drawingEnabled = false
      ∧ (toggleDrawing (idleWith [lineOf 0 100 2 90, lineOf 1 110 2 90])).lines = [] :=
  mode_off_clears (idleWith [lineOf 0 100 2 90, lineOf 1 110 2 90]) rfl

/-- C6, as stated, fails: in a drag anchored at data `(0, 100)` the release is
converted by an x scale that yields `NaN`; the point is not valid (a
coordinate is not finite), yet a line ending at `NaN` is committed. -/
theorem abandoned_drag_counterexample :
    Dragging (draggingWith [] 0 100 none) = true
      ∧ validPoint (pointerData (some (chartWith nanScale unitScale)) (mouseAt 2 90)) = false
      ∧ (onMouseUp (draggingWith [] 0 100 none) (some (chartWith nanScale unitScale))
          (mouseAt 2 90)).lines
        = [{ x1 := dataVal 0, y1 := dataVal 100, x2 := .num .nan, y2 := dataVal 90 }] := by
  decide

/-- C6 (abandoned drag), amended. In every Dragging state, a pointerUp on a
mounted chart (the reference resolves and the chart has a canvas) whose
conversion fails in a way the handler tests for (the scales or an axis scale are
absent, the canvas or a scale throws, or a coordinate converts to `undefined`)
leaves the committed lines unchanged and ends idle with no anchor and no
draft. -/
theorem abandoned_drag (s : DrawState) (ref : Option ChartRefObj) (e : MouseEvent)
    (chart : ChartObj) (cv : Canvas) (hdrag : Dragging s = true)
    (hchart : resolveChart ref = some chart) (hcv : chart.canvas = some cv)
    (hrej : rejectedPoint (pointerData ref e) = true) :
    (onMouseUp s ref e).lines = s.lines ∧ (onMouseUp s ref e).isDrawing = false
      ∧ (onMouseUp s ref e).startPoint = none ∧ (onMouseUp s ref e).tempLine = none := by
  rw [pointerData_mounted ref e chart cv hchart hcv] at hrej
  rw [onMouseUp_mounted s ref e chart cv hdrag hchart hcv]
  refine ⟨?_, rfl, rfl, rfl⟩
  simp only [clearDrag]
  exact onMouseUpTry_rejected s chart cv e hrej

/-- C6 amended, on a drag with one earlier line and a draft, released over a
chart whose y scale is missing. -/
theorem abandoned_drag_witness :
    (onMouseUp (draggingWith [lineOf 1 110 2 90] 0 100 (some (lineOf 0 100 1 95)))
        (some { chartInstance := none,
                own := { options := none, ctx := none,
                         scales := some { x := some unitScale, y := none },
                         canvas := some originCanvas } })
        (mouseAt 2 90)).lines = [lineOf 1 110 2 90]
      ∧ (onMouseUp (draggingWith [lineOf 1 110 2 90] 0 100 (some (lineOf 0 100 1 95)))
        (some { chartInstance := none,
                own := { options := none, ctx := none,
                         scales := some { x := some unitScale, y := none },
                         canvas := some originCanvas } })
        (mouseAt 2 90)).isDrawing = false :=
  have h := abandoned_drag (draggingWith [lineOf 1 110 2 90] 0 100 (some (lineOf 0 100 1 95)))
    (some { chartInstance := none,
            own := { options := none, ctx := none,
                     scales := some { x := some unitScale, y := none },
                     canvas := some originCanvas } })
    (mouseAt 2 90)
    { options := none, ctx := none, scales := some { x := some unitScale, y := none },
      canvas := some originCanvas }
    originCanvas rfl rfl rfl rfl
  ⟨h.1, h.2.1⟩

/-- C7, as stated, fails: when the chart reference is null, a pointerUp
received while Dragging returns before the cleanup and the machine stays
Dragging with its anchor and its draft. -/
theorem pointerUp_cleanup_counterexample :
    Dragging (draggingWith [] 0 100 (some (lineOf 0 100 1 95))) = true
      ∧ onMouseUp (draggingWith [] 0 100 (some (lineOf 0 100 1 95))) none (mouseAt 2 90)
        = draggingWith [] 0 100 (some (lineOf 0 100 1 95)) := by
  decide

/-- C7 (pointerUp cleanup), amended. In every Dragging state, every pointerUp
on a mounted chart (the reference resolves and the chart has a canvas), whatever
its scales are and whatever the conversion yields or throws, ends idle with
no anchor and no draft. -/
theorem pointerUp_cleanup (s : DrawState) (ref : Option ChartRefObj) (e : MouseEvent)
    (chart : ChartObj) (cv : Canvas) (hdrag : Dragging s = true)
    (hchart : resolveChart ref = some chart) (hcv : chart.canvas = some cv) :
    (onMouseUp s ref e).isDrawing = false ∧ (onMouseUp s ref e).startPoint = none
      ∧ (onMouseUp s ref e).tempLine = none := by
  rw [onMouseUp_mounted s ref e chart cv hdrag hchart hcv]
  exact ⟨rfl, rfl, rfl⟩

/-- C7 amended, on a release over a chart that has a canvas but no scales. -/
theorem pointerUp_cleanup_witness :
    (onMouseUp (draggingWith [] 0 100 (some (lineOf 0 100 1 95)))
        (some { chartInstance := none,
                own := { options := none, ctx := none, scales := none,
                         canvas := some originCanvas } })
        (mouseAt 2 90)).isDrawing = false
      ∧ (onMouseUp (draggingWith [] 0 100 (some (lineOf 0 100 1 95)))
        (some { chartInstance := none,
                own := { options := none, ctx := none, scales := none,
                         canvas := some originCanvas } })
        (mouseAt 2 90)).startPoint = none
      ∧ (onMouseUp (draggingWith [] 0 100 (some (lineOf 0 100 1 95)))
        (some { chartInstance := none,
                own := { options := none, ctx := none, scales := none,
                         canvas := some originCanvas } })
        (mouseAt 2 90)).tempLine = none :=
  pointerUp_cleanup (draggingWith [] 0 100 (some (lineOf 0 100 1 95)))
    (some { chartInstance := none,
            own := { options := none, ctx := none, scales := none,
                     canvas := some originCanvas } })
    (mouseAt 2 90)
    { options := none, ctx := none, scales := none, canvas := some originCanvas }
    originCanvas rfl rfl rfl

/-- C10, as stated, fails: in a drag anchored at data `(0, 100)` with no draft,
a pointerMove converted by an x scale that yields `NaN` is not a valid point,
yet it is not ignored: the draft becomes a line ending at `NaN`. -/
theorem pointerMove_transition_counterexample :
    Dragging (draggingWith [] 0 100 none) = true
      ∧ validPoint (pointerData (some (chartWith nanScale unitScale)) (mouseAt 1 95)) = false
      ∧ (onMouseMove (draggingWith [] 0 100 none) (some (chartWith nanScale unitScale))
          (mouseAt 1 95)).tempLine
        = some { x1 := dataVal 0, y1 := dataVal 100, x2 := .num .nan, y2 := dataVal 95 }
      ∧ (draggingWith [] 0 100 none).tempLine = none := by
  decide

/-- C10 (pointerMove transition), amended. In every Dragging state with anchor
`P`: a pointerMove whose conversion is not obtained (no chart, no canvas, a
scale absent, an exception) or has `undefined` in a coordinate leaves the
whole state unchanged; a pointerMove whose conversion yields the pair `Q` with
neither coordinate `undefined` (every valid point is such a pair) sets the
draft to `{x1: P.x, y1: P.y, x2: Q.x, y2: Q.y}` and changes nothing else, so
the anchor and the Dragging state stay. -/
theorem pointerMove_transition (s : DrawState) (P : Point) (ref : Option ChartRefObj)
    (e : MouseEvent) (hdr : s.isDrawing = true) (hsp : s.startPoint = some P) :
    (rejectedPoint (pointerData ref e) = true → onMouseMove s ref e = s)
      ∧ ∀ Q : Point, pointerData ref e = some (Q.x, Q.y) → Q.x ≠ JsVal.undefined →
          Q.y ≠ JsVal.undefined →
          onMouseMove s ref e
            = { s with tempLine := some { x1 := P.x, y1 := P.y, x2 := Q.x, y2 := Q.y } } := by
  constructor
  · intro hrej
    unfold pointerData at hrej
    unfold onMouseMove
    simp only [hdr, hsp, Option.isNone_some, Bool.not_true, Bool.or_self, Bool.false_eq_true,
      if_false]
    split
    · rfl
    · next chart hchart =>
      split
      · rfl
      · next cv hcv =>
        simp only [hchart, hcv] at hrej
        split
        · rfl
        · rfl
        · next xVal yVal hpd =>
          simp only [hpd, rejectedPoint, decide_eq_true_eq] at hrej
          simp [hrej]
  · intro Q hp hx hy
    unfold pointerData at hp
    unfold onMouseMove
    simp only [hdr, hsp, Option.isNone_some, Bool.not_true, Bool.or_self, Bool.false_eq_true,
      if_false]
    split at hp
    · simp at hp
    · next chart hchart =>
      split at hp
      · simp at hp
      · next cv hcv =>
        split at hp
        · next p hpd =>
          cases hp
          simp [hpd, hx, hy]
        · simp at hp

/-- C10 amended, on a drag anchored at data `(0, 100)`: a move over a chart
without scales is ignored, and a move to data `(1, 95)` sets the draft. -/
theorem pointerMove_transition_witness :
    onMouseMove (draggingWith [] 0 100 none)
        (some { chartInstance := none,
                own := { options := none, ctx := none, scales := none,
                         canvas := some originCanvas } })
        (mouseAt 1 95) = draggingWith [] 0 100 none
      ∧ onMouseMove (draggingWith [] 0 100 none) (some (chartWith unitScale unitScale))
        (mouseAt 1 95) = draggingWith [] 0 100 (some (lineOf 0 100 1 95)) :=
  ⟨(pointerMove_transition (draggingWith [] 0 100 none) { x := dataVal 0, y := dataVal 100 }
      (some { chartInstance := none,
              own := { options := none, ctx := none, scales := none,
                       canvas := some originCanvas } })
      (mouseAt 1 95) rfl rfl).1 rfl,
   (pointerMove_transition (draggingWith [] 0 100 none) { x := dataVal 0, y := dataVal 100 }
      (some (chartWith unitScale unitScale)) (mouseAt 1 95) rfl rfl).2
      { x := dataVal 1, y := dataVal 95 } rfl (by decide) (by decide)⟩

/-! ## The overlay renderer -/

/-- C8 (per-line skip). For every sequence of committed lines, optional draft
and scales (present or not, throwing or not), on a context whose calls do not
throw, the render pass performs exactly the set-up calls, then one stroke for
each committed line whose four endpoint pixel coordinates are all finite, in
sequence order, then the stroke of the draft under the same rule, then
`restore`; a line with a coordinate that is not finite contributes no call
and leaves the strokes of all other lines and of the draft in place. -/
theorem overlay_per_line_skip (chart : ChartObj) (opts : ChartOptions) (pl : Plugins)
    (cfg : LineDrawerCfg) (c0 : Ctx) (hopts : chart.options = some opts)
    (hpl : opts.plugins = some pl) (hcfg : pl.lineDrawer = some cfg)
    (hctx : chart.ctx = some c0) (hc : ∀ h op, c0.faulty h op = false) :
    (afterDraw chart).1
      = some { c0 with
          log := c0.log ++ overlayCalls chart.scales (cfg.lines.getD []) cfg.tempLine } := by
  have hrun := Ctx.run_sound [CtxOp.save, CtxOp.setLineWidth 2, CtxOp.setLineJoin "round"] c0 hc
  have hbind : (some pl).bind (fun p => p.lineDrawer) = some cfg := by simp [hcfg]
  have htry : afterDrawTry chart
      = (some { c0 with
          log := c0.log ++ overlayCalls chart.scales (cfg.lines.getD []) cfg.tempLine },
         none) := by
    simp only [afterDrawTry, hopts, hpl, hbind, hctx, hrun]
    rw [drawSaved_sound chart.scales (cfg.lines.getD [])
        { c0 with log := c0.log ++ [CtxOp.save, CtxOp.setLineWidth 2, CtxOp.setLineJoin "round"] }
        hc]
    rw [drawTemp_sound chart.scales cfg.tempLine
        { c0 with log := c0.log ++ [CtxOp.save, CtxOp.setLineWidth 2, CtxOp.setLineJoin "round"]
                    ++ (List.map (strokeCalls chart.scales savedColor) (cfg.lines.getD [])).flatten }
        hc]
    rw [Ctx.run_sound [CtxOp.restore]
        { c0 with log := c0.log ++ [CtxOp.save, CtxOp.setLineWidth 2, CtxOp.setLineJoin "round"]
                    ++ (List.map (strokeCalls chart.scales savedColor) (cfg.lines.getD [])).flatten
                    ++ (match cfg.tempLine with
                        | none => []
                        | some t => strokeCalls chart.scales tempColor t) }
        hc]
    simp [overlayCalls]
  simp [afterDraw, htry]

/-- C8 on three committed lines and a draft, the second line starting at the
data value whose pixel is `NaN`: lines one and three and the draft are
stroked, line two is not. -/
theorem overlay_per_line_skip_witness :
    Option.map Ctx.log (afterDraw (overlayChart cleanCtx gapScale unitScale
        [lineOf 0 100 2 90, lineOf 1 110 2 90, lineOf 0 90 2 100]
        (some (lineOf 2 100 3 95)))).1
      = some [CtxOp.save, CtxOp.setLineWidth 2, CtxOp.setLineJoin "round",
          CtxOp.setStrokeStyle savedColor, CtxOp.beginPath,
          CtxOp.moveTo (dataVal 0) (dataVal 100), CtxOp.lineTo (dataVal 2) (dataVal 90),
          CtxOp.stroke,
          CtxOp.setStrokeStyle savedColor, CtxOp.beginPath,
          CtxOp.moveTo (dataVal 0) (dataVal 90), CtxOp.lineTo (dataVal 2) (dataVal 100),
          CtxOp.stroke,
          CtxOp.setStrokeStyle tempColor, CtxOp.beginPath,
          CtxOp.moveTo (dataVal 2) (dataVal 100), CtxOp.lineTo (dataVal 3) (dataVal 95),
          CtxOp.stroke,
          CtxOp.restore] := by
  rw [overlay_per_line_skip (overlayChart cleanCtx gapScale unitScale
        [lineOf 0 100 2 90, lineOf 1 110 2 90, lineOf 0 90 2 100] (some (lineOf 2 100 3 95)))
      { plugins := some { lineDrawer := some {
          lines := some [lineOf 0 100 2 90, lineOf 1 110 2 90, lineOf 0 90 2 100],
          tempLine := some (lineOf 2 100 3 95) } } }
      { lineDrawer := some {
          lines := some [lineOf 0 100 2 90, lineOf 1 110 2 90, lineOf 0 90 2 100],
          tempLine := some (lineOf 2 100 3 95) } }
      { lines := some [lineOf 0 100 2 90, lineOf 1 110 2 90, lineOf 0 90 2 100],
        tempLine := some (lineOf 2 100 3 95) }
      cleanCtx rfl rfl rfl rfl (fun _ _ => rfl)]
  decide

/-- The `try` block of `afterDraw` does throw on some charts: here the first
canvas call fails. -/
theorem afterDrawTry_throws :
    (afterDrawTry (overlayChart brokenCtx unitScale unitScale [] none)).2
      = some "canvas error" := by
  decide

/-- C9 (the render pass never raises). For every chart, whatever its options,
plugin configuration, context, scales and fault tables are, `afterDraw`
returns normally: no exception reaches its caller. -/
theorem afterDraw_never_raises (chart : ChartObj) : (afterDraw chart).2 = none := by
  unfold afterDraw
  split <;> rfl

/-! ## The export job controller -/

/-- C2, evaluated on the code. After a successful start, a tick whose snapshot
has status `failed` (and likewise `stopped`) stores the snapshot but does not
cancel the timer: the timer stays live, `exporting` stays true, and the next
tick sends a further status request. Only `done` cancels. -/
theorem poll_tick_terminal_status_keeps_polling :
    (pollTick startedJob 0 (.json (snapshotOf "failed"))).cbStatus
        = some (snapshotOf "failed")
      ∧ (pollTick startedJob 0 (.json (snapshotOf "failed"))).timers
        = [{ id := 0, jobId := some "job-1" }]
      ∧ (pollTick startedJob 0 (.json (snapshotOf "failed"))).exporting = true
      ∧ (pollTick (pollTick startedJob 0 (.json (snapshotOf "failed"))) 0
          (.json (snapshotOf "failed"))).statusRequests = [some "job-1", some "job-1"]
      ∧ (pollTick startedJob 0 (.json (snapshotOf "stopped"))).timers
        = [{ id := 0, jobId := some "job-1" }]
      ∧ (pollTick startedJob 0 (.json (snapshotOf "stopped"))).exporting = true
      ∧ (pollTick (pollTick startedJob 0 (.json (snapshotOf "stopped"))) 0
          (.json (snapshotOf "stopped"))).statusRequests = [some "job-1", some "job-1"]
      ∧ (pollTick startedJob 0 (.json (snapshotOf "done"))).timers = [] := by
  decide

/-- C3, as stated, fails. (1) On a slow server the answers `running`, `done`
(`k = 1`) are handled while a third request has already been sent: three
status requests, not two. (2) A job started while a request of an earlier job
is outstanding handles that stale `done` answer (`k = 0`) without having sent
any request, and its timer stays live. (3) A job started while the timer of
an earlier job is live ends on its `done` answer, and the old timer still
sends a request afterwards. -/
theorem poll_termination_counterexample :
    (answered (startedWith ExportState.init (some "job-1")) lateTicks
        = [.json (snapshotOf "running"), .json (snapshotOf "done")]
      ∧ ((startedWith ExportState.init (some "job-1")).run lateTicks).st.statusRequests
        = [some "job-1", some "job-1", some "job-1"])
      ∧ (answered (AsyncExport.init.run staleRun) [.settle 0 (.json (snapshotOf "done"))]
          = [.json (snapshotOf "done")]
        ∧ ((AsyncExport.init.run staleRun).run
            [.settle 0 (.json (snapshotOf "done"))]).st.statusRequests
          = (AsyncExport.init.run (staleRun.take 4)).st.statusRequests
        ∧ ((AsyncExport.init.run staleRun).run
            [.settle 0 (.json (snapshotOf "done"))]).st.timers
          = [{ id := 1, jobId := some "job-2" }])
      ∧ (answered (AsyncExport.init.run (overlapRun ++ [.startClick (.ok (some "job-3"))]))
            [.fire 2, .settle 0 (.json (snapshotOf "done"))]
          = [.json (snapshotOf "done")]
        ∧ ((AsyncExport.init.run (overlapRun ++ [.startClick (.ok (some "job-3")), .fire 2,
            .settle 0 (.json (snapshotOf "done"))])).step (.fire 1)).st.statusRequests
          = (AsyncExport.init.run (overlapRun ++ [.startClick (.ok (some "job-3")), .fire 2,
            .settle 0 (.json (snapshotOf "done"))])).st.statusRequests ++ [some "job-2"]) := by
  decide

/-- C3 (poll termination), amended. A job is started from a state with no
live timer, no status request outstanding; its timer fires and answers are
handled in any interleaving, and the answers handled are `k` snapshots with
status `running` followed by one with status `done`. Then the number of
status requests issued is `k + 1` plus the number of requests still
outstanding when `done` has been handled, so exactly `k + 1` when every
request sent has been answered; the timer is live as long as only `running`
answers have been handled and is cancelled by the handling of `done`, which
stores the final snapshot and resets `exporting`; and afterwards, as long as
no new job is started, no timer firing and no answer issues a status
request. -/
theorem poll_termination (s : ExportState) (job : Option String) (running : List Snapshot)
    (final : Snapshot) (evs : List ExportEvent) (hno : s.timers = [])
    (hrun : ∀ d ∈ running, d.status = "running") (hdone : final.status = "done")
    (hns : noStart evs = true)
    (hans : answered (startedWith s job) evs
      = running.map StatusReply.json ++ [StatusReply.json final]) :
    ((startedWith s job).run evs).st.statusRequests
        = s.statusRequests
          ++ List.replicate (running.length + 1 + ((startedWith s job).run evs).pending.length) job
      ∧ (((startedWith s job).run evs).pending = [] →
          ((startedWith s job).run evs).st.statusRequests
            = s.statusRequests ++ List.replicate (running.length + 1) job)
      ∧ (∀ evs0, noStart evs0 = true →
          (∀ r ∈ answered (startedWith s job) evs0,
            ∃ d, r = StatusReply.json d ∧ d.status = "running") →
          ((startedWith s job).run evs0).st.timers = [{ id := s.nextTimer, jobId := job }])
      ∧ ((startedWith s job).run evs).st.timers = []
      ∧ ((startedWith s job).run evs).st.exporting = false
      ∧ ((startedWith s job).run evs).st.cbStatus = some final
      ∧ ∀ later, noStart later = true →
          (((startedWith s job).run evs).run later).st.statusRequests
            = ((startedWith s job).run evs).st.statusRequests := by
  have hlive : (startedWith s job).st.timers = [{ id := s.nextTimer, jobId := job }] := by
    simp [startedWith, startCoinbaseExport, hno]
  obtain ⟨n, hreq, hcount, htimers, hexp, hcb⟩ :=
    live_run evs (startedWith s job) s.nextTimer job running final hlive
      (by intro x hx; simp [startedWith] at hx) hrun hdone hns hans
  have hn : n = running.length + 1 + ((startedWith s job).run evs).pending.length := by
    simp only [startedWith, List.length_nil, Nat.add_zero] at hcount
    exact hcount
  have hreq0 : (startedWith s job).st.statusRequests = s.statusRequests := rfl
  rw [hreq0, hn] at hreq
  refine ⟨hreq, ?_, ?_, htimers, hexp, hcb, ?_⟩
  · intro hp
    rw [hreq, hp]
    rfl
  · intro evs0 hns0 hall
    rw [live_on evs0 (startedWith s job) hns0 hall, hlive]
  · intro later hlater
    exact (quiet_run later _ htimers hlater).2.1

/-- C3 on the answers `running, running, done`, each tick answered before the
next one fires, from the initial state: three status requests, none
outstanding, the timer gone and `exporting` reset. -/
theorem poll_termination_witness :
    ((startedWith ExportState.init (some "job-1")).run steadyTicks).st.statusRequests
        = [some "job-1", some "job-1", some "job-1"]
      ∧ ((startedWith ExportState.init (some "job-1")).run steadyTicks).st.timers = []
      ∧ ((startedWith ExportState.init (some "job-1")).run steadyTicks).st.exporting = false :=
  have h := poll_termination ExportState.init (some "job-1")
    [snapshotOf "running", snapshotOf "running"] (snapshotOf "done") steadyTicks rfl
    (by decide) rfl (by decide) (by decide)
  ⟨h.2.1 (by decide), h.2.2.2.1, h.2.2.2.2.1⟩

/-- C4 (poll failure terminality). For every tick of a live timer whose status
round trip fails with message `msg` (the fetch rejects, the body does not
parse, or the body is `null`): the request of that tick is the last one, the
timer is cancelled, `exportErr` holds `msg`, `exporting` is false (the job is
locally failed, no longer running), later firings of that timer change
nothing and so issue no status request, and when it was the only live timer
no firing of any timer does. -/
theorem poll_failure_terminal (s : ExportState) (id : Nat) (t : Timer) (reply : StatusReply)
    (msg : String) (hlive : s.timers.find? (fun t => t.id == id) = some t)
    (hfail : reply.failure = some msg) :
    (pollTick s id reply).statusRequests = s.statusRequests ++ [t.jobId]
      ∧ (pollTick s id reply).timers.find? (fun t => t.id == id) = none
      ∧ (pollTick s id reply).exportErr = some msg
      ∧ (pollTick s id reply).exporting = false
      ∧ (∀ later : List StatusReply,
          pollAll (pollTick s id reply) (ticksOf id later) = pollTick s id reply)
      ∧ (s.timers = [t] → ∀ later : List (Nat × StatusReply),
          pollAll (pollTick s id reply) later = pollTick s id reply) := by
  have hstate : pollTick s id reply
      = { s with statusRequests := s.statusRequests ++ [t.jobId],
                 cbStatus := (pollTick s id reply).cbStatus,
                 timers := s.timers.filter (fun t => t.id != id),
                 exportErr := some msg, exporting := false } := by
    cases reply with
    | fetchError m =>
      simp only [StatusReply.failure, Option.some.injEq] at hfail
      simp [pollTick, hlive, pollCatch, clearInterval, hfail]
    | jsonError m =>
      simp only [StatusReply.failure, Option.some.injEq] at hfail
      simp [pollTick, hlive, pollCatch, clearInterval, hfail]
    | jsonNull =>
      simp only [StatusReply.failure, Option.some.injEq] at hfail
      simp [pollTick, hlive, pollCatch, clearInterval, hfail]
    | json d => simp [StatusReply.failure] at hfail
  have hdead : (pollTick s id reply).timers.find? (fun t => t.id == id) = none := by
    rw [hstate]
    exact find_after_clear s.timers id
  refine ⟨by rw [hstate], hdead, by rw [hstate], by rw [hstate], ?_, ?_⟩
  · intro later
    apply pollAll_dead
    intro tk htk
    simp only [ticksOf, List.mem_map] at htk
    obtain ⟨r, _, rfl⟩ := htk
    exact hdead
  · intro hone later
    have hid : (t.id == id) = true := by
      have h := List.find?_some hlive
      simpa using h
    have hempty : (pollTick s id reply).timers = [] := by
      rw [hstate]
      simp only [hone, List.filter_cons, List.filter_nil]
      simp [bne, hid]
    apply pollAll_dead
    intro tk _
    rw [hempty]
    rfl

/-- C4 on the replies `running`, then a network error on tick 2: two
requests in all, the error captured, the job no longer exporting, the timer
gone, and a third firing attempt changes nothing. -/
theorem poll_failure_terminal_witness :
    (pollTick (pollTick startedJob 0 (.json (snapshotOf "running"))) 0
        (.fetchError "Failed to fetch")).statusRequests = [some "job-1", some "job-1"]
      ∧ (pollTick (pollTick startedJob 0 (.json (snapshotOf "running"))) 0
        (.fetchError "Failed to fetch")).exportErr = some "Failed to fetch"
      ∧ (pollTick (pollTick startedJob 0 (.json (snapshotOf "running"))) 0
        (.fetchError "Failed to fetch")).exporting = false
      ∧ (pollTick (pollTick startedJob 0 (.json (snapshotOf "running"))) 0
        (.fetchError "Failed to fetch")).timers = [] :=
  have h := poll_failure_terminal (pollTick startedJob 0 (.json (snapshotOf "running"))) 0
    { id := 0, jobId := some "job-1" } (.fetchError "Failed to fetch") "Failed to fetch"
    (by decide) rfl
  ⟨h.1, h.2.2.1, h.2.2.2.1, by decide⟩

/-! ## The drag machine: pointerDown, guards and resets -/

/-- C11, as stated, fails: from an idle state with drawing mode on and a
dataset loaded, a pointerDown converted by an x scale that yields `NaN` is not
a valid point (a coordinate is not finite), yet the machine enters Dragging
with the anchor `(NaN, 100)`. -/
theorem pointerDown_transition_counterexample :
    Idle (idleWith []) = true
      ∧ validPoint (pointerData (some (chartWith nanScale unitScale)) (mouseAt 0 100)) = false
      ∧ Dragging (onMouseDown (idleWith []) (some (chartWith nanScale unitScale))
          (mouseAt 0 100)) = true
      ∧ (onMouseDown (idleWith []) (some (chartWith nanScale unitScale))
          (mouseAt 0 100)).startPoint = some { x := .num .nan, y := dataVal 100 } := by
  decide

/-- C11 (pointerDown transition), amended. From every idle state with drawing
mode on and a dataset loaded, a pointerDown enters Dragging if and only if the
conversion is obtained and neither coordinate is `undefined` (a `NaN` or
infinite coordinate is accepted); it then records the converted pair as
anchor, with no draft and the committed lines unchanged. Otherwise (no
conversion, or `undefined` in a coordinate) the state is unchanged: the
machine remains idle with no anchor. -/
theorem pointerDown_transition (s : DrawState) (ref : Option ChartRefObj) (e : MouseEvent)
    (hidle : Idle s = true) (hen : s.drawingEnabled = true)
    (hdata : s.chartData.isSome = true) :
    Dragging (onMouseDown s ref e) = !rejectedPoint (pointerData ref e)
      ∧ (onMouseDown s ref e).tempLine = none
      ∧ (onMouseDown s ref e).lines = s.lines
      ∧ (∀ x y, pointerData ref e = some (x, y) → rejectedPoint (some (x, y)) = false →
          (onMouseDown s ref e).startPoint = some { x := x, y := y })
      ∧ (rejectedPoint (pointerData ref e) = true →
          onMouseDown s ref e = s ∧ Idle (onMouseDown s ref e) = true) := by
  simp only [Idle, Bool.and_eq_true, Bool.not_eq_true', Option.isNone_iff_eq_none] at hidle
  obtain ⟨⟨hflag, hanchor⟩, hdraft⟩ := hidle
  cases hrej : rejectedPoint (pointerData ref e) with
  | true =>
    have hsame := onMouseDown_rejected s ref e hrej
    rw [hsame]
    refine ⟨by simp [Dragging, hflag], hdraft, rfl, ?_, ?_⟩
    · intro x y hp hr
      rw [hp, hr] at hrej
      cases hrej
    · intro _
      exact ⟨rfl, by simp [Idle, hflag, hanchor, hdraft]⟩
  | false =>
    obtain ⟨x, y, hp, hx, hy⟩ := rejectedPoint_false _ hrej
    have hdown := onMouseDown_eq s ref e x y hen hdata hp hx hy
    rw [hdown]
    refine ⟨by simp [Dragging], hdraft, rfl, ?_, ?_⟩
    · intro x1 y1 hp1 _
      rw [hp] at hp1
      cases hp1
      rfl
    · intro h
      cases h

/-- C11 amended, from the idle state on the sample dataset: a press at data
`(0, 100)` enters Dragging with that anchor and no draft. -/
theorem pointerDown_transition_witness :
    Dragging (onMouseDown (idleWith []) (some (chartWith unitScale unitScale)) (mouseAt 0 100))
        = !rejectedPoint (pointerData (some (chartWith unitScale unitScale)) (mouseAt 0 100))
      ∧ (onMouseDown (idleWith []) (some (chartWith unitScale unitScale))
          (mouseAt 0 100)).startPoint = some { x := dataVal 0, y := dataVal 100 } :=
  have h := pointerDown_transition (idleWith []) (some (chartWith unitScale unitScale))
    (mouseAt 0 100) rfl rfl rfl
  ⟨h.1, h.2.2.2.1 (dataVal 0) (dataVal 100) rfl rfl⟩

/-- C12, as stated, fails: in the reachable state of a drag in progress, a
pointerUp on a chart whose y scale is missing (the transform is invalid) is
not a no-op: it ends the drag, the flag and the anchor are cleared. -/
theorem pointer_guard_counterexample :
    transformInvalid (some chartNoY) = true
      ∧ Dragging (DrawState.init.run dragStart) = true
      ∧ onMouseUp (DrawState.init.run dragStart) (some chartNoY) (mouseAt 2 90)
        ≠ DrawState.init.run dragStart
      ∧ Dragging (onMouseUp (DrawState.init.run dragStart) (some chartNoY) (mouseAt 2 90))
        = false := by
  decide

/-- C12 (guard), amended. In every reachable state, if drawing mode is off, or
no dataset is loaded, or the transform is invalid at the event (no chart, no
scales, or an axis scale missing), then pointerDown and pointerMove are
no-ops and pointerUp commits nothing: the committed lines are unchanged.
With drawing mode off or no dataset, pointerUp is a no-op as well. With only
the transform invalid, pointerUp either is a no-op or ends the drag in
progress, clearing flag, anchor and draft and nothing else. -/
theorem pointer_guard (evs : List DrawEvent) (ref : Option ChartRefObj) (e : MouseEvent)
    (hoff : (DrawState.init.run evs).drawingEnabled = false
      ∨ (DrawState.init.run evs).chartData = none ∨ transformInvalid ref = true) :
    onMouseDown (DrawState.init.run evs) ref e = DrawState.init.run evs
      ∧ onMouseMove (DrawState.init.run evs) ref e = DrawState.init.run evs
      ∧ (onMouseUp (DrawState.init.run evs) ref e).lines = (DrawState.init.run evs).lines
      ∧ (onMouseUp (DrawState.init.run evs) ref e = DrawState.init.run evs
          ∨ onMouseUp (DrawState.init.run evs) ref e = clearDrag (DrawState.init.run evs))
      ∧ ((DrawState.init.run evs).drawingEnabled = false
            ∨ (DrawState.init.run evs).chartData = none →
          onMouseUp (DrawState.init.run evs) ref e = DrawState.init.run evs) := by
  have hinv := run_preserves evs DrawState.init (by decide) (by decide)
  generalize DrawState.init.run evs = s at hinv hoff ⊢
  have hidle : s.drawingEnabled = false ∨ s.chartData = none → s.isDrawing = false := by
    intro h
    have hg := hinv.2
    obtain ⟨en, cd, ls, dr, tl, sp⟩ := s
    rcases h with h | h <;> simp_all [dragGuarded]
  have hdownOff : s.drawingEnabled = false ∨ s.chartData = none → onMouseDown s ref e = s := by
    intro h
    obtain ⟨en, cd, ls, dr, tl, sp⟩ := s
    rcases h with h | h <;> simp_all [onMouseDown]
  have hmoveOff : s.isDrawing = false → onMouseMove s ref e = s := by
    intro h
    simp [onMouseMove, h]
  have hupOff : s.isDrawing = false → onMouseUp s ref e = s := by
    intro h
    simp [onMouseUp, h]
  have hupAll : s.drawingEnabled = false ∨ s.chartData = none → onMouseUp s ref e = s :=
    fun h => hupOff (hidle h)
  rcases hoff with h | h | h
  · have hup := hupAll (Or.inl h)
    exact ⟨hdownOff (Or.inl h), hmoveOff (hidle (Or.inl h)), by rw [hup], Or.inl hup, hupAll⟩
  · have hup := hupAll (Or.inr h)
    exact ⟨hdownOff (Or.inr h), hmoveOff (hidle (Or.inr h)), by rw [hup], Or.inl hup, hupAll⟩
  · have hnone := pointerData_invalid ref e h
    have hrej : rejectedPoint (pointerData ref e) = true := by rw [hnone]; rfl
    have hup := onMouseUp_unconverted s ref e hnone
    refine ⟨onMouseDown_rejected s ref e hrej, onMouseMove_rejected s ref e hrej, ?_, hup,
      hupAll⟩
    rcases hup with hu | hu <;> rw [hu]
    rfl

/-- C12 amended, on the drag in progress of the counterexample and the chart
without y scale: pointerDown and pointerMove change nothing, pointerUp leaves
the committed lines as they are. -/
theorem pointer_guard_witness :
    onMouseDown (DrawState.init.run dragStart) (some chartNoY) (mouseAt 2 90)
        = DrawState.init.run dragStart
      ∧ onMouseMove (DrawState.init.run dragStart) (some chartNoY) (mouseAt 2 90)
        = DrawState.init.run dragStart
      ∧ (onMouseUp (DrawState.init.run dragStart) (some chartNoY) (mouseAt 2 90)).lines
        = (DrawState.init.run dragStart).lines :=
  have h := pointer_guard dragStart (some chartNoY) (mouseAt 2 90) (Or.inr (Or.inr rfl))
  ⟨h.1, h.2.1, h.2.2.1⟩

/-- C14 (dataset replacement reset). After a successful `loadHistory`, and
after a `loadCsvHistory` whose body is available with data, whatever the state
was before (a drag in progress included): the committed lines are empty,
there is no draft, the machine is idle with no anchor, drawing mode is off,
and the dataset is the loaded one. Nothing of a drag in progress is
committed. -/
theorem dataset_replacement_reset (s : DrawState) :
    (∀ labels data,
        (loadHistory s (.loaded labels data)).lines = []
          ∧ Idle (loadHistory s (.loaded labels data)) = true
          ∧ (loadHistory s (.loaded labels data)).drawingEnabled = false
          ∧ (loadHistory s (.loaded labels data)).chartData
            = some { labels := labels.getD [], prices := data.getD [] })
      ∧ ∀ labels data, data ≠ [] →
          (loadCsvHistory s (.json true labels data)).lines = []
            ∧ Idle (loadCsvHistory s (.json true labels data)) = true
            ∧ (loadCsvHistory s (.json true labels data)).drawingEnabled = false
            ∧ (loadCsvHistory s (.json true labels data)).chartData
              = some { labels := labels, prices := data } := by
  constructor
  · intro labels data
    simp [loadHistory, resetDrawing, drawingEffect, Idle]
  · intro labels data hdata
    have hlen : (data.length == 0) = false := by
      cases data with
      | nil => exact absurd rfl hdata
      | cons d rest => rfl
    simp [loadCsvHistory, hlen, resetDrawing, drawingEffect, Idle]

/-- C14 on a drag in progress with one committed line and a draft: both a
history load and a CSV load of the sample dataset leave no line, no draft
and no drag. -/
theorem dataset_replacement_reset_witness :
    (loadHistory (draggingWith [lineOf 1 110 2 90] 0 100 (some (lineOf 0 100 1 95)))
        (.loaded (some sampleData.labels) (some sampleData.prices))).lines = []
      ∧ (loadCsvHistory (draggingWith [lineOf 1 110 2 90] 0 100 (some (lineOf 0 100 1 95)))
        (.json true sampleData.labels sampleData.prices)).lines = []
      ∧ Idle (loadCsvHistory (draggingWith [lineOf 1 110 2 90] 0 100 (some (lineOf 0 100 1 95)))
        (.json true sampleData.labels sampleData.prices)) = true :=
  have h := dataset_replacement_reset
    (draggingWith [lineOf 1 110 2 90] 0 100 (some (lineOf 0 100 1 95)))
  have hcsv := h.2 sampleData.labels sampleData.prices (by decide)
  ⟨(h.1 (some sampleData.labels) (some sampleData.prices)).1, hcsv.1, hcsv.2.1⟩

/-- C16 (state-machine invariant). In every state reached from the initial
state by pointer events, clicks on the drawing toggle and on the clear-lines
button, and dataset loads: a draft is present only while the flag is set and
an anchor is recorded, the flag is set exactly when an anchor is recorded, and
so a state that is not Dragging has no draft. -/
theorem state_machine_invariant (evs : List DrawEvent) :
    ((DrawState.init.run evs).tempLine.isSome = true →
        (DrawState.init.run evs).isDrawing = true
          ∧ (DrawState.init.run evs).startPoint.isSome = true)
      ∧ ((DrawState.init.run evs).isDrawing = true
          ↔ (DrawState.init.run evs).startPoint.isSome = true)
      ∧ (Dragging (DrawState.init.run evs) = false → (DrawState.init.run evs).tempLine = none) := by
  have hinv := (run_preserves evs DrawState.init (by decide) (by decide)).1
  generalize DrawState.init.run evs = s at hinv ⊢
  obtain ⟨en, cd, ls, dr, tl, sp⟩ := s
  cases dr <;> cases tl <;> cases sp <;> simp_all [flagsConsistent, Dragging]

/-- C18, as stated, fails: after a press at data `(0, 100)` and a move to
`(1, 95)`, a second press at `(2, 90)` received while still Dragging moves
the anchor to `(2, 90)` and leaves the draft, which starts at `(0, 100)`. -/
theorem draft_anchor_counterexample :
    (DrawState.init.run (dragStart ++
        [.pointerMove (some (chartWith unitScale unitScale)) (mouseAt 1 95),
         .pointerDown (some (chartWith unitScale unitScale)) (mouseAt 2 90)])).tempLine
        = some (lineOf 0 100 1 95)
      ∧ (DrawState.init.run (dragStart ++
        [.pointerMove (some (chartWith unitScale unitScale)) (mouseAt 1 95),
         .pointerDown (some (chartWith unitScale unitScale)) (mouseAt 2 90)])).startPoint
        = some { x := dataVal 2, y := dataVal 90 }
      ∧ draftAnchored (DrawState.init.run (dragStart ++
        [.pointerMove (some (chartWith unitScale unitScale)) (mouseAt 1 95),
         .pointerDown (some (chartWith unitScale unitScale)) (mouseAt 2 90)])) = false := by
  decide

/-- C18 (draft-anchor consistency), amended. In every state reached from the
initial state by a sequence of events in which each pointerDown arrives with
no draft present or leaves the anchor where it is, a draft that is present
starts at the recorded anchor: its `(x1, y1)` equals the anchor. A pointerDown
received while Dragging is allowed as long as no draft is present. -/
theorem draft_anchor_consistency (evs : List DrawEvent)
    (hdisc : downsKeepAnchor DrawState.init evs = true) (l : Line)
    (hdraft : (DrawState.init.run evs).tempLine = some l) :
    ∃ sp, (DrawState.init.run evs).startPoint = some sp ∧ l.x1 = sp.x ∧ l.y1 = sp.y := by
  have hanch := run_anchored evs DrawState.init (by decide) hdisc
  generalize DrawState.init.run evs = s at hanch hdraft
  obtain ⟨en, cd, ls, dr, tl, sp⟩ := s
  simp only at hdraft
  subst hdraft
  cases sp with
  | none => simp [draftAnchored] at hanch
  | some p =>
    simp only [draftAnchored, decide_eq_true_eq] at hanch
    exact ⟨p, rfl, hanch.1, hanch.2⟩

/-- C18 amended, on a press at data `(0, 100)`, a second press at `(2, 90)`
received while Dragging with no draft yet, and a move to `(1, 95)`: the draft
starts at the anchor `(2, 90)`. -/
theorem draft_anchor_consistency_witness :
    ∃ sp, (DrawState.init.run (dragStart ++
        [.pointerDown (some (chartWith unitScale unitScale)) (mouseAt 2 90),
         .pointerMove (some (chartWith unitScale unitScale)) (mouseAt 1 95)])).startPoint
          = some sp
      ∧ (lineOf 2 90 1 95).x1 = sp.x ∧ (lineOf 2 90 1 95).y1 = sp.y :=
  draft_anchor_consistency
    (dragStart ++ [.pointerDown (some (chartWith unitScale unitScale)) (mouseAt 2 90),
      .pointerMove (some (chartWith unitScale unitScale)) (mouseAt 1 95)])
    (by decide) (lineOf 2 90 1 95) (by decide)

/-! ## The export job: start failures, teardown, single timer -/

/-- C13 (start failure). For every start round trip that fails with message
`msg` (network error, response not `ok`, body that does not parse or is
`null`): `exportErr` holds `msg`, `exporting` is false, no job status exists,
no timer is created and no status request is sent; and when no timer was live
before, no timer firing afterwards sends a status request. -/
theorem start_failure (s : ExportState) (reply : StartReply) (msg : String)
    (hfail : reply.failure = some msg) :
    (startCoinbaseExport s reply).exportErr = some msg
      ∧ (startCoinbaseExport s reply).exporting = false
      ∧ (startCoinbaseExport s reply).cbStatus = none
      ∧ (startCoinbaseExport s reply).timers = s.timers
      ∧ (startCoinbaseExport s reply).statusRequests = s.statusRequests
      ∧ (s.timers = [] → ∀ later : List (Nat × StatusReply),
          pollAll (startCoinbaseExport s reply) later = startCoinbaseExport s reply) := by
  have hstate : startCoinbaseExport s reply
      = { s with exporting := false, exportErr := some msg, cbStatus := none } := by
    cases reply with
    | fetchError m =>
      simp only [StartReply.failure, Option.some.injEq] at hfail
      simp [startCoinbaseExport, hfail]
    | notOk text =>
      cases text with
      | error m =>
        simp only [StartReply.failure, Option.some.injEq] at hfail
        simp [startCoinbaseExport, hfail]
      | ok t =>
        simp only [StartReply.failure, Option.some.injEq] at hfail
        simp [startCoinbaseExport, hfail]
    | jsonError m =>
      simp only [StartReply.failure, Option.some.injEq] at hfail
      simp [startCoinbaseExport, hfail]
    | jsonNull =>
      simp only [StartReply.failure, Option.some.injEq] at hfail
      simp [startCoinbaseExport, hfail]
    | ok job => simp [StartReply.failure] at hfail
  rw [hstate]
  refine ⟨rfl, rfl, rfl, rfl, rfl, ?_⟩
  intro hno later
  apply pollAll_dead
  intro tk _
  simp [hno]

/-- C13 on a start answered `500` with the body text `server busy`, from the
initial state. -/
theorem start_failure_witness :
    (startCoinbaseExport ExportState.init (.notOk (.ok "server busy"))).exportErr
        = some "server busy"
      ∧ (startCoinbaseExport ExportState.init (.notOk (.ok "server busy"))).exporting = false
      ∧ (startCoinbaseExport ExportState.init (.notOk (.ok "server busy"))).timers = [] :=
  have h := start_failure ExportState.init (.notOk (.ok "server busy")) "server busy" rfl
  ⟨h.1, h.2.1, h.2.2.2.1⟩

/-- C15, as stated, fails: after the teardown of a component whose job was
started, the timer is still live, and its next firing sends a status
request. -/
theorem teardown_counterexample :
    (teardown startedJob).timers = [{ id := 0, jobId := some "job-1" }]
      ∧ startedJob.statusRequests = []
      ∧ (pollTick (teardown startedJob) 0 (.json (snapshotOf "running"))).statusRequests
        = [some "job-1"] := by
  decide

/-- C15 (teardown), amended. Tearing the component down does not cancel the
poll timer. In every state in which the timer `id` is live, after teardown:
the timer is still live; its next firing still sends its status request; an
event of the export controls takes the timer away only if it is the settling
of one of the timer's own status requests with a `done` snapshot or a failed
round trip; and every such settling does take it away. -/
theorem teardown_keeps_timer (a : AsyncExport) (id : Nat) (t : Timer)
    (hlive : a.st.timers.find? (fun t => t.id == id) = some t) :
    a.unmount.st.timers.find? (fun t => t.id == id) = some t
      ∧ (pollFire a.unmount id).st.statusRequests = a.st.statusRequests ++ [t.jobId]
      ∧ (pollFire a.unmount id).pending = a.pending ++ [id]
      ∧ (∀ ev : ExportEvent,
          (a.unmount.step ev).st.timers.find? (fun t => t.id == id) = none →
          ∃ k reply, ev = .settle k reply ∧ a.pending.get? k = some id ∧ reply.ends = true)
      ∧ ∀ k reply, a.pending.get? k = some id → reply.ends = true →
          (a.unmount.step (.settle k reply)).st.timers.find? (fun t => t.id == id) = none := by
  have hun : a.unmount = a := rfl
  rw [hun]
  refine ⟨hlive, by simp [pollFire, hlive], by simp [pollFire, hlive], ?_, ?_⟩
  · intro ev hgone
    cases ev with
    | stopClick =>
      simp only [AsyncExport.step, hlive] at hgone
      cases hgone
    | fire i =>
      have hsame : (pollFire a i).st.timers = a.st.timers := by
        unfold pollFire
        split <;> rfl
      simp only [AsyncExport.step, hsame, hlive] at hgone
      cases hgone
    | startClick reply =>
      simp only [AsyncExport.step] at hgone
      split at hgone
      · rw [hlive] at hgone; cases hgone
      · cases reply with
        | fetchError m => simp [startCoinbaseExport, hlive] at hgone
        | notOk text => cases text <;> simp [startCoinbaseExport, hlive] at hgone
        | jsonError m => simp [startCoinbaseExport, hlive] at hgone
        | jsonNull => simp [startCoinbaseExport, hlive] at hgone
        | ok job => simp [startCoinbaseExport, List.find?_append, hlive] at hgone
    | settle k reply =>
      simp only [AsyncExport.step, pollSettle] at hgone
      cases hget : a.pending.get? k with
      | none =>
        simp only [hget, hlive] at hgone
        cases hgone
      | some x =>
        simp only [hget] at hgone
        cases hends : reply.ends with
        | false =>
          rw [pollResume_goes_on a.st x reply hends, hlive] at hgone
          cases hgone
        | true =>
          rw [pollResume_ends a.st x reply hends] at hgone
          by_cases hx : x = id
          · subst hx
            exact ⟨k, reply, rfl, hget, hends⟩
          · rw [find_filter_other a.st.timers id x hx, hlive] at hgone
            cases hgone
  · intro k reply hget hends
    simp only [AsyncExport.step, pollSettle, hget]
    rw [pollResume_ends a.st id reply hends]
    exact find_after_clear a.st.timers id

/-- C15 amended, on the started job with one status request outstanding: after
teardown the timer is live and fires a second request; the answer `running`
leaves the timer, the answer `done` takes it away. -/
theorem teardown_keeps_timer_witness :
    (pollFire (pollFire { st := startedJob, pending := [] } 0).unmount 0).st.statusRequests
        = [some "job-1", some "job-1"]
      ∧ ((pollFire { st := startedJob, pending := [] } 0).unmount.step
          (.settle 0 (.json (snapshotOf "running")))).st.timers
        = [{ id := 0, jobId := some "job-1" }]
      ∧ ((pollFire { st := startedJob, pending := [] } 0).unmount.step
          (.settle 0 (.json (snapshotOf "done")))).st.timers.find? (fun t => t.id == 0)
        = none :=
  have h := teardown_keeps_timer (pollFire { st := startedJob, pending := [] } 0) 0
    { id := 0, jobId := some "job-1" } (by decide)
  ⟨h.2.1, by decide, h.2.2.2.2 0 (.json (snapshotOf "done")) (by decide) (by decide)⟩

/-- C17, as stated, fails: the first job has two status requests outstanding
at once; the first answer is `done`, the export button becomes enabled and a
second job is started; then the other answer of the first job arrives and
resets `exporting` while the timer of the second job is live. The button is
enabled again, and a third start leaves two live timers. -/
theorem single_timer_counterexample :
    (AsyncExport.init.run overlapRun).st.timers = [{ id := 1, jobId := some "job-2" }]
      ∧ (AsyncExport.init.run overlapRun).st.exporting = false
      ∧ ((AsyncExport.init.run overlapRun).step (.startClick (.ok (some "job-3")))).st.timers
        = [{ id := 1, jobId := some "job-2" }, { id := 2, jobId := some "job-3" }] := by
  decide

/-- C17 (single-timer invariant), amended. In every state reached through the
export controls by a sequence of events in which every start of a job
arrives while no status request is outstanding (timer firings may overlap
with outstanding requests): a live poll timer implies that `exporting` is
set, at most one timer is live, and while a timer is live a click on the
export button changes nothing, so no new job is started. -/
theorem single_timer (evs : List ExportEvent)
    (hapart : startsApart AsyncExport.init evs = true) :
    ((AsyncExport.init.run evs).st.timers ≠ [] → (AsyncExport.init.run evs).st.exporting = true)
      ∧ (AsyncExport.init.run evs).st.timers.length ≤ 1
      ∧ ((AsyncExport.init.run evs).st.timers ≠ [] → ∀ reply,
          (AsyncExport.init.run evs).step (.startClick reply) = AsyncExport.init.run evs) := by
  have hsingle := async_run_preserves evs AsyncExport.init (by decide) (by decide) hapart
  generalize AsyncExport.init.run evs = a at hsingle ⊢
  obtain ⟨s, pending⟩ := a
  simp only [singleTimer] at hsingle
  cases hts : s.timers with
  | nil => simp
  | cons t rest =>
    cases rest with
    | cons t2 rest2 => simp [hts] at hsingle
    | nil =>
      simp only [hts] at hsingle
      simp [AsyncExport.step, hsingle]

/-- C17 amended, on a slow server: with two status requests of the job
outstanding at once and one of them answered `running`, one timer is live,
`exporting` is set, and a click on the export button changes nothing. -/
theorem single_timer_witness :
    (AsyncExport.init.run slowRun).st.timers.length ≤ 1
      ∧ (AsyncExport.init.run slowRun).st.exporting = true
      ∧ (AsyncExport.init.run slowRun).step (.startClick (.ok (some "job-2")))
        = AsyncExport.init.run slowRun :=
  have h := single_timer slowRun (by decide)
  ⟨h.2.1, h.1 (by decide), h.2.2 (by decide) (.ok (some "job-2"))⟩

/-! ## The moving average -/

/-- C19 (`calcMovingAverage`). For every price list, every window
`days > 1` and whatever the number operations are (those of doubles included):
the result is as long as the price list, its entries at the indices
`i < days - 1` are `null`, and its entry at every index `i >= days - 1` is
`(0 + data[i-days+1] + ... + data[i]) / days`, the prices of the window added
from left to right to the initial `0` and the sum divided by `days`; where
`0 + x` is `x` for the first price `x` of the window, that is
`(data[i-days+1] + ... + data[i]) / days`. For `days` absent, `0`, or at most
`1`, the result is the empty list. -/
theorem moving_average {α : Type} (ar : Arith α) (data : List α) (d : Int) (hd : 1 < d) :
    (calcMovingAverage ar data (some d)).length = data.length
      ∧ (∀ i, i < data.length → (i : Int) < d - 1 →
          (calcMovingAverage ar data (some d))[i]? = some none)
      ∧ (∀ i, i < data.length → d - 1 ≤ (i : Int) →
          (calcMovingAverage ar data (some d))[i]?
            = some (some (ar.div
                (((data.drop (i + 1 - d.toNat)).take d.toNat).foldl ar.add ar.zero)
                (ar.ofInt d))))
      ∧ (∀ i x rest, i < data.length → d - 1 ≤ (i : Int) →
          (data.drop (i + 1 - d.toNat)).take d.toNat = x :: rest → ar.add ar.zero x = x →
          (calcMovingAverage ar data (some d))[i]?
            = some (some (ar.div (rest.foldl ar.add x) (ar.ofInt d))))
      ∧ calcMovingAverage ar data none = []
      ∧ ∀ d0 : Int, d0 ≤ 1 → calcMovingAverage ar data (some d0) = [] := by
  have hnot : ¬ (d = 0 ∨ d ≤ 1) := by omega
  have hvalue : ∀ i, i < data.length → d - 1 ≤ (i : Int) →
      (calcMovingAverage ar data (some d))[i]?
        = some (some (ar.div
            (((data.drop (i + 1 - d.toNat)).take d.toNat).foldl ar.add ar.zero)
            (ar.ofInt d))) := by
    intro i hi hge
    have hnlt : ¬ ((i : Int) < d - 1) := by omega
    have hwin : i + 1 - d.toNat + d.toNat ≤ data.length := by omega
    simp only [calcMovingAverage, hnot, if_false, List.getElem?_map, List.getElem?_range hi,
      Option.map_some', hnlt]
    rw [window_foldl ar data d.toNat (i + 1 - d.toNat) ar.zero hwin]
  refine ⟨?_, ?_, hvalue, ?_, rfl, ?_⟩
  · simp [calcMovingAverage, hnot]
  · intro i hi hlt
    simp [calcMovingAverage, hnot, List.getElem?_range hi, hlt]
  · intro i x rest hi hge hwindow hzero
    rw [hvalue i hi hge, hwindow, List.foldl_cons, hzero]
  · intro d0 hd0
    simp [calcMovingAverage, hd0]

/-- C19 on the prices `100, 110, 90` with a window of two days, in exact
arithmetic: the result has three entries, the first is `null`, and the third
is `(110 + 90) / 2`. -/
theorem moving_average_witness :
    (calcMovingAverage ratArith [100, 110, 90] (some 2)).length = 3
      ∧ (calcMovingAverage ratArith [100, 110, 90] (some 2))[0]? = some none
      ∧ (calcMovingAverage ratArith [100, 110, 90] (some 2))[2]?
        = some (some (ratArith.div (ratArith.add 110 90) (ratArith.ofInt 2))) :=
  have h := moving_average ratArith [100, 110, 90] 2 (by decide)
  ⟨h.1, h.2.1 0 (by decide) (by decide),
    h.2.2.2.1 2 110 [90] (by decide) (by decide) rfl (by simp [ratArith])⟩

end TradingBoard
